import Mathlib

/-!
Verification development for the chess_woodpecker repository.

Part 1 embeds the PGN move-text tokenizer and tree builder from
`src/db.js` (class `PGNParser`).  Part 2 embeds the puzzle-session
traversal engine from `src/unnamed/part_003` (class `WoodpeckerTrainer`).
Strings are processed as `List Char`, mirroring the JavaScript
index-based scanning; the external chess rules engine (chess.js, a CDN
dependency that is not part of the repository) is modelled as an
abstract structure of operations over FEN strings.
-/

namespace PGNParser

/-- JavaScript `\s` character class (the white-space characters used by
`/\s/.test`). -/
def jsIsSpace (c : Char) : Bool :=
  let n := c.toNat
  n = 32 || n = 9 || n = 10 || n = 13 || n = 11 || n = 12 || n = 0xA0 ||
  n = 0x1680 || (0x2000 ≤ n && n ≤ 0x200A) || n = 0x2028 || n = 0x2029 ||
  n = 0x202F || n = 0x205F || n = 0x3000 || n = 0xFEFF

/-- JavaScript `\w` character class: `[A-Za-z0-9_]`. -/
def jsIsWord (c : Char) : Bool :=
  (('A' ≤ c && c ≤ 'Z') || ('a' ≤ c && c ≤ 'z') || c.isDigit || c = '_')

/-- Tokens produced by `PGNParser._tokenize`.  A `$` with no digits after
it produces `parseInt('') = NaN` in JavaScript; that is modelled as a
`nag none`. -/
inductive Token where
  | comment (text : String)
  | variationStart
  | variationEnd
  | nag (value : Option Nat)
  | result (value : String)
  | moveNumber (value : Nat) (isBlack : Bool)
  | move (san : String)
  deriving Repr, DecidableEq, Inhabited

/-- The brace-balanced comment scan of `_tokenize` (the `while (j <
text.length && depth > 0)` loop).  Returns the consumed characters
(including the character that brought the depth to zero, when any) and
the remaining input.  The caller drops the last consumed character,
mirroring `text.slice(i + 1, j - 1)`. -/
def commentScan : List Char → Nat → List Char × List Char
  | [], _ => ([], [])
  | c :: cs, depth =>
    let d := if c = '{' then depth + 1 else if c = '}' then depth - 1 else depth
    if d = 0 then ([c], cs)
    else
      let r := commentScan cs d
      (c :: r.1, r.2)

/-- Match a literal prefix, returning the remaining input on success. -/
def litMatch : List Char → List Char → Option (List Char)
  | [], cs => some cs
  | _ :: _, [] => none
  | l :: ls, c :: cs => if c = l then litMatch ls cs else none

/-- The result-marker regex `^(1-0|0-1|1\/2-1\/2|\*)`, alternatives in
source order. -/
def resultMatch (cs : List Char) : Option (String × List Char) :=
  match litMatch ['1', '-', '0'] cs with
  | some r => some ("1-0", r)
  | none =>
  match litMatch ['0', '-', '1'] cs with
  | some r => some ("0-1", r)
  | none =>
  match litMatch ['1', '/', '2', '-', '1', '/', '2'] cs with
  | some r => some ("1/2-1/2", r)
  | none =>
  match litMatch ['*'] cs with
  | some r => some ("*", r)
  | none => none

/-- Count leading dots, up to the given maximum (the `\.{1,3}` greedy
bounded repetition). -/
def takeDots : List Char → Nat → Nat
  | _, 0 => 0
  | [], _ + 1 => 0
  | c :: cs, n + 1 => if c = '.' then 1 + takeDots cs n else 0

/-- Numeric value of a digit run (JavaScript `parseInt` on a nonempty
all-digit string). -/
def digitsVal (ds : List Char) : Nat :=
  ds.foldl (fun a c => a * 10 + (c.toNat - 48)) 0

/-- The move-number regex `^(\d+)(\.{1,3})\s*`: digits, one to three
dots, then trailing white-space is consumed.  `isBlack` holds exactly
when three dots matched. -/
def moveNumberMatch (cs : List Char) : Option (Nat × Bool × List Char) :=
  let ds := cs.takeWhile Char.isDigit
  let rest1 := cs.dropWhile Char.isDigit
  if ds.isEmpty then none
  else
    let dots := takeDots rest1 3
    if dots = 0 then none
    else
      let rest2 := rest1.drop dots
      let rest3 := rest2.dropWhile jsIsSpace
      some (digitsVal ds, dots == 3, rest3)

def isPieceChar (c : Char) : Bool :=
  c = 'K' || c = 'Q' || c = 'R' || c = 'B' || c = 'N'

def isFileChar (c : Char) : Bool := 'a' ≤ c && c ≤ 'h'

def isRankChar (c : Char) : Bool := '1' ≤ c && c ≤ '8'

def isPromoChar (c : Char) : Bool :=
  c = 'Q' || c = 'R' || c = 'B' || c = 'N'

/-- One optional single-character class `X?` of the SAN regex, with the
branch choice (`use`) made explicit: when `use` is set the class must
match and the character is consumed, otherwise nothing is consumed. -/
def optConsume (use : Bool) (p : Char → Bool) (cs : List Char) :
    Option (List Char × List Char) :=
  if use then
    match cs with
    | c :: rest => if p c then some ([c], rest) else none
    | [] => none
  else some ([], cs)

/-- The greedy promotion group `(?:=[QRBN])?` of the SAN regex. -/
def sanSuffix1 (cs : List Char) : List Char × List Char :=
  match cs with
  | '=' :: p :: rest =>
    if isPromoChar p then (['=', p], rest) else (([] : List Char), cs)
  | _ => (([] : List Char), cs)

/-- The greedy check/mate group `[+#]?` of the SAN regex. -/
def sanSuffix2 (cs : List Char) : List Char × List Char :=
  match cs with
  | c :: rest =>
    if c = '+' || c = '#' then ([c], rest) else (([] : List Char), cs)
  | [] => (([] : List Char), cs)

/-- The greedy suffix `(?:=[QRBN])?[+#]?` of the SAN regex. -/
def sanSuffix (cs : List Char) : List Char × List Char :=
  let a := sanSuffix1 cs
  let b := sanSuffix2 a.2
  (a.1 ++ b.1, b.2)

/-- One backtracking path through the alternative
`[KQRBN]?[a-h]?[1-8]?x?[a-h][1-8](?:=[QRBN])?[+#]?` of the SAN regex,
with the four optional-presence choices fixed. -/
def pmAttempt (usePiece useFile useRank useCapt : Bool) (cs : List Char) :
    Option (List Char × List Char) :=
  match optConsume usePiece isPieceChar cs with
  | none => none
  | some (m1, r1) =>
  match optConsume useFile isFileChar r1 with
  | none => none
  | some (m2, r2) =>
  match optConsume useRank isRankChar r2 with
  | none => none
  | some (m3, r3) =>
  match optConsume useCapt (fun c => c = 'x') r3 with
  | none => none
  | some (m4, r4) =>
  match r4 with
  | f :: r5 =>
    if isFileChar f then
      match r5 with
      | rk :: r6 =>
        if isRankChar rk then
          let s := sanSuffix r6
          some (m1 ++ m2 ++ m3 ++ m4 ++ [f, rk] ++ s.1, s.2)
        else none
      | [] => none
    else none
  | [] => none

/-- The sixteen presence/absence combinations of the four optional
prefix classes, in the order a backtracking regex engine explores them
(earlier optionals vary last; the consuming branch is tried first). -/
def pieceAltCombos : List (Bool × Bool × Bool × Bool) :=
  [(true, true, true, true), (true, true, true, false),
   (true, true, false, true), (true, true, false, false),
   (true, false, true, true), (true, false, true, false),
   (true, false, false, true), (true, false, false, false),
   (false, true, true, true), (false, true, true, false),
   (false, true, false, true), (false, true, false, false),
   (false, false, true, true), (false, false, true, false),
   (false, false, false, true), (false, false, false, false)]

def firstAttempt : List (Bool × Bool × Bool × Bool) → List Char →
    Option (List Char × List Char)
  | [], _ => none
  | (p, f, r, x) :: rest, cs =>
    match pmAttempt p f r x cs with
    | some res => some res
    | none => firstAttempt rest cs

/-- The SAN-move regex
`^(O-O-O|O-O|[KQRBN]?[a-h]?[1-8]?x?[a-h][1-8](?:=[QRBN])?[+#]?|[a-h][1-8](?:=[QRBN])?[+#]?)`,
alternatives tried in source order. -/
def sanMatch (cs : List Char) : Option (List Char × List Char) :=
  match litMatch ['O', '-', 'O', '-', 'O'] cs with
  | some r => some (['O', '-', 'O', '-', 'O'], r)
  | none =>
  match litMatch ['O', '-', 'O'] cs with
  | some r => some (['O', '-', 'O'], r)
  | none =>
  match firstAttempt pieceAltCombos cs with
  | some res => some res
  | none => pmAttempt false false false false cs

/-- The bare annotation symbols `(\?\?|\?\!|\!\?|\!\!|\?|\!)` with the
fixed symbol-to-NAG table, alternatives in source order (two-character
sequences before one-character ones). -/
def annotMatch (cs : List Char) : Option (Nat × List Char) :=
  match litMatch ['?', '?'] cs with
  | some r => some (4, r)
  | none =>
  match litMatch ['?', '!'] cs with
  | some r => some (6, r)
  | none =>
  match litMatch ['!', '?'] cs with
  | some r => some (5, r)
  | none =>
  match litMatch ['!', '!'] cs with
  | some r => some (3, r)
  | none =>
  match litMatch ['?'] cs with
  | some r => some (2, r)
  | none =>
  match litMatch ['!'] cs with
  | some r => some (1, r)
  | none => none

/-- The single-pass scanning loop of `PGNParser._tokenize`, with the
guard precedence of the source: white-space, comment, variation
open/close, NAG, result marker, move number, SAN move, annotation
symbols, then silently skipping the character.  Recursion is fuelled;
every branch consumes at least one character, so the fuel
`length + 1` used by `tokenize` never runs out. -/
def tokenizeAux : Nat → List Char → List Token
  | 0, _ => []
  | _ + 1, [] => []
  | fuel + 1, c :: cs =>
    if jsIsSpace c then tokenizeAux fuel cs
    else if c = '{' then
      let r := commentScan cs 1
      Token.comment (String.mk r.1.dropLast) :: tokenizeAux fuel r.2
    else if c = '(' then Token.variationStart :: tokenizeAux fuel cs
    else if c = ')' then Token.variationEnd :: tokenizeAux fuel cs
    else if c = '$' then
      let ds := cs.takeWhile Char.isDigit
      let rest := cs.dropWhile Char.isDigit
      Token.nag (if ds.isEmpty then none else some (digitsVal ds)) ::
        tokenizeAux fuel rest
    else
      match resultMatch (c :: cs) with
      | some (v, rest) => Token.result v :: tokenizeAux fuel rest
      | none =>
      match moveNumberMatch (c :: cs) with
      | some (n, b, rest) => Token.moveNumber n b :: tokenizeAux fuel rest
      | none =>
      match sanMatch (c :: cs) with
      | some (m, rest) => Token.move (String.mk m) :: tokenizeAux fuel rest
      | none =>
      match annotMatch (c :: cs) with
      | some (v, rest) => Token.nag (some v) :: tokenizeAux fuel rest
      | none => tokenizeAux fuel cs

/-- `PGNParser._tokenize`. -/
def tokenize (text : String) : List Token :=
  tokenizeAux (text.length + 1) text.data

end PGNParser

namespace PGNParser

/-- JavaScript `String.prototype.trim` on a character list. -/
def jsTrimList (cs : List Char) : List Char :=
  ((cs.dropWhile jsIsSpace).reverse.dropWhile jsIsSpace).reverse

/-- JavaScript `String.prototype.trim`. -/
def jsTrim (s : String) : String := String.mk (jsTrimList s.data)

/-- JavaScript `String.prototype.split` with a one-character separator
(splitting an empty string yields one empty piece). -/
def jsSplitAux (sep : Char) : List Char → List Char → List String
  | [], acc => [String.mk acc.reverse]
  | c :: cs, acc =>
    if c = sep then String.mk acc.reverse :: jsSplitAux sep cs []
    else jsSplitAux sep cs (c :: acc)

/-- JavaScript `s.split(sep)` for a one-character separator. -/
def jsSplit (s : String) (sep : Char) : List String :=
  jsSplitAux sep s.data []

/-- JavaScript `s.startsWith(c)` for a one-character prefix. -/
def jsStartsWith (s : String) (c : Char) : Bool :=
  match s.data with
  | d :: _ => d = c
  | [] => false

/-- JavaScript `s.endsWith(c)` for a one-character suffix. -/
def jsEndsWith (s : String) (c : Char) : Bool :=
  match s.data.getLast? with
  | some d => d = c
  | none => false

/-- An arrow annotation extracted from a `[%cal ...]` directive. -/
structure Arrow where
  color : String
  fromSq : String
  toSq : String
  deriving Repr, DecidableEq, Inhabited

/-- A square highlight extracted from a `[%csl ...]` directive. -/
structure Highlight where
  color : String
  square : String
  deriving Repr, DecidableEq, Inhabited

/-- Result of `PGNParser._parseComment`. -/
structure ParsedComment where
  text : String
  arrows : List Arrow
  highlights : List Highlight
  deriving Repr, DecidableEq, Inhabited

/-- `PGNParser._mapColor`: ChessBase colour codes to CSS colours, with
the blue fallback for unknown codes. -/
def mapColor (code : Char) : String :=
  let c := code.toUpper
  if c = 'R' then "#e74c3c"
  else if c = 'G' then "#2ecc71"
  else if c = 'B' then "#3498db"
  else if c = 'Y' then "#f1c40f"
  else if c = 'C' then "#1abc9c"
  else if c = 'M' then "#9b59b6"
  else "#3498db"

/-- Decode the comma-separated `<color><from><to>` triples of a
`[%cal ...]` body (entries shorter than five characters after trimming
are skipped). -/
def parseArrowList (body : List Char) : List Arrow :=
  (body.splitOn ',').filterMap fun a =>
    let t := jsTrimList a
    if 5 ≤ t.length then
      some ⟨mapColor (t.getD 0 ' '), String.mk ((t.drop 1).take 2),
            String.mk ((t.drop 3).take 2)⟩
    else none

/-- Decode the comma-separated `<color><square>` pairs of a
`[%csl ...]` body. -/
def parseHighlightList (body : List Char) : List Highlight :=
  (body.splitOn ',').filterMap fun h =>
    let t := jsTrimList h
    if 3 ≤ t.length then
      some ⟨mapColor (t.getD 0 ' '), String.mk ((t.drop 1).take 2)⟩
    else none

/-- Match a `[%cal ...]` or `[%csl ...]` directive (regex
`\[%cal\s+([^\]]+)\]`) at the head of the input: the literal tag, at
least one white-space character, a nonempty bracket-free body, and the
closing bracket.  Returns the captured body and the remaining input.
When the greedy `\s+` would leave the `[^\]]+` group empty the regex
engine backtracks one white-space character into the body. -/
def directiveMatch (tag : List Char) (cs : List Char) :
    Option (List Char × List Char) :=
  match litMatch tag cs with
  | none => none
  | some r1 =>
    let all := r1.takeWhile (fun c => !(c = ']'))
    match r1.dropWhile (fun c => !(c = ']')) with
    | ']' :: rest =>
      let ws := all.takeWhile jsIsSpace
      let body := all.dropWhile jsIsSpace
      if ws.isEmpty then none
      else if body.isEmpty then
        if 2 ≤ all.length then some (all.drop (all.length - 1), rest) else none
      else some (body, rest)
    | _ => none

/-- Match the generic engine-annotation regex `\[%\w+\s+[^\]]*\]` at the
head of the input, returning the remaining input. -/
def tagMatch (cs : List Char) : Option (List Char) :=
  match cs with
  | '[' :: '%' :: r1 =>
    let w := r1.takeWhile jsIsWord
    if w.isEmpty then none
    else
      let r2 := r1.dropWhile jsIsWord
      let ws := r2.takeWhile jsIsSpace
      if ws.isEmpty then none
      else
        let r3 := r2.dropWhile jsIsSpace
        match r3.dropWhile (fun c => !(c = ']')) with
        | ']' :: rest => some rest
        | _ => none
  | _ => none

/-- The global-replace pass extracting `[%cal ...]` arrows. -/
def calPassAux : Nat → List Char → List Char × List Arrow
  | 0, cs => (cs, [])
  | _ + 1, [] => ([], [])
  | fuel + 1, c :: cs =>
    match directiveMatch ['[', '%', 'c', 'a', 'l'] (c :: cs) with
    | some (body, rest) =>
      let r := calPassAux fuel rest
      (r.1, parseArrowList body ++ r.2)
    | none =>
      let r := calPassAux fuel cs
      (c :: r.1, r.2)

/-- The global-replace pass extracting `[%csl ...]` highlights. -/
def cslPassAux : Nat → List Char → List Char × List Highlight
  | 0, cs => (cs, [])
  | _ + 1, [] => ([], [])
  | fuel + 1, c :: cs =>
    match directiveMatch ['[', '%', 'c', 's', 'l'] (c :: cs) with
    | some (body, rest) =>
      let r := cslPassAux fuel rest
      (r.1, parseHighlightList body ++ r.2)
    | none =>
      let r := cslPassAux fuel cs
      (c :: r.1, r.2)

/-- The global-replace pass stripping remaining `[%... ...]` engine
annotations. -/
def tagPassAux : Nat → List Char → List Char
  | 0, cs => cs
  | _ + 1, [] => []
  | fuel + 1, c :: cs =>
    match tagMatch (c :: cs) with
    | some rest => tagPassAux fuel rest
    | none => c :: tagPassAux fuel cs

/-- `text.replace(/\s+/g, ' ')`: collapse each white-space run to a
single space (the flag records whether the previous character was
white-space). -/
def collapseWsAux : List Char → Bool → List Char
  | [], _ => []
  | c :: cs, prevWs =>
    if jsIsSpace c then
      if prevWs then collapseWsAux cs true else ' ' :: collapseWsAux cs true
    else c :: collapseWsAux cs false

/-- `PGNParser._cleanComment`. -/
def cleanComment (cs : List Char) : String :=
  String.mk (jsTrimList (collapseWsAux cs false))

/-- `PGNParser._parseComment`: extract arrows, then highlights, then
strip remaining engine annotations, then clean the text. -/
def parseComment (raw : String) : ParsedComment :=
  let p1 := calPassAux (raw.data.length + 1) raw.data
  let p2 := cslPassAux (p1.1.length + 1) p1.1
  let p3 := tagPassAux (p2.1.length + 1) p2.1
  ⟨cleanComment p3, p1.2, p2.2⟩

end PGNParser

namespace PGNParser

/-- A parsed move node, as built by `PGNParser._parseMoves`.  Each
variation is itself an ordered sequence of move nodes. -/
inductive MoveNode : Type where
  | mk (san : String) (moveNumber : Nat) (isWhite : Bool) (comment : String)
       (nags : List (Option Nat)) (arrows : List Arrow)
       (highlights : List Highlight) (variations : List (List MoveNode)) :
       MoveNode

def MoveNode.san : MoveNode → String
  | .mk s _ _ _ _ _ _ _ => s

def MoveNode.moveNumber : MoveNode → Nat
  | .mk _ n _ _ _ _ _ _ => n

def MoveNode.isWhite : MoveNode → Bool
  | .mk _ _ w _ _ _ _ _ => w

def MoveNode.comment : MoveNode → String
  | .mk _ _ _ c _ _ _ _ => c

def MoveNode.nags : MoveNode → List (Option Nat)
  | .mk _ _ _ _ ng _ _ _ => ng

def MoveNode.arrows : MoveNode → List Arrow
  | .mk _ _ _ _ _ a _ _ => a

def MoveNode.highlights : MoveNode → List Highlight
  | .mk _ _ _ _ _ _ h _ => h

def MoveNode.variations : MoveNode → List (List MoveNode)
  | .mk _ _ _ _ _ _ _ v => v

/-- The node object literal created for a `move` token: empty comment,
NAG, annotation and variation lists. -/
def MoveNode.fresh (san : String) (num : Nat) (side : Bool) : MoveNode :=
  .mk san num side "" [] [] [] []

/-- `node.nags.push(value)`. -/
def MoveNode.addNag : MoveNode → Option Nat → MoveNode
  | .mk s n w c ng a h v, x => .mk s n w c (ng ++ [x]) a h v

/-- Merge a decoded comment into a node: nonempty text is appended with
a separating space (or becomes the comment when none was present), and
the extracted arrows and highlights are pushed onto the node's lists. -/
def MoveNode.absorbComment : MoveNode → ParsedComment → MoveNode
  | .mk s n w c ng a h v, p =>
    let c2 :=
      if c ≠ "" ∧ p.text ≠ "" then c ++ " " ++ p.text
      else if p.text ≠ "" then p.text
      else c
    .mk s n w c2 ng (a ++ p.arrows) (h ++ p.highlights) v

/-- `node.variations.push(variation)`. -/
def MoveNode.addVariation : MoveNode → List MoveNode → MoveNode
  | .mk s n w c ng a h v, nv => .mk s n w c ng a h (v ++ [nv])

/-- The inner loop collecting NAG and comment tokens immediately after
a move token. -/
def absorbAnnots : MoveNode → List Token → MoveNode × List Token
  | node, .nag v :: ts => absorbAnnots (node.addNag v) ts
  | node, .comment c :: ts => absorbAnnots (node.absorbComment (parseComment c)) ts
  | node, ts => (node, ts)

/-- The inner loop absorbing comment tokens appearing between
successive variation groups (they describe the branch point and merge
into the node's comment and annotation fields). -/
def skipInterComments : MoveNode → List Token → MoveNode × List Token
  | node, .comment c :: ts => skipInterComments (node.absorbComment (parseComment c)) ts
  | node, ts => (node, ts)

/-- After a recursively parsed variation, the caller consumes the
closing `variation_end` token when present. -/
def dropVariationEnd : List Token → List Token
  | .variationEnd :: r => r
  | r => r

mutual

/-- The `parseSequence` loop of `PGNParser._parseMoves`.  The
accumulator holds the moves pushed so far, newest first (so a comment
token with no preceding move in the sequence attaches to its head);
`num`/`side` are the `currentMoveNumber`/`expectWhite` state, which
every call starts at move 1, White.  Recursion is fuelled; every
recursive call consumes at least one token, so the fuel
`tokens.length + 1` used by `parseMoves` never runs out. -/
def parseSeqAux : Nat → List Token → Nat → Bool → List MoveNode →
    List MoveNode × List Token
  | 0, ts, _, _, acc => (acc.reverse, ts)
  | _ + 1, [], _, _, acc => (acc.reverse, [])
  | fuel + 1, t :: ts, num, side, acc =>
    match t with
    | .variationEnd => (acc.reverse, t :: ts)
    | .result _ => parseSeqAux fuel ts num side acc
    | .moveNumber n b => parseSeqAux fuel ts n (!b) acc
    | .move san =>
      let a1 := absorbAnnots (MoveNode.fresh san num side) ts
      let a2 := parseVars fuel a1.1 a1.2
      parseSeqAux fuel a2.2 (if side then num else num + 1) (!side)
        (a2.1 :: acc)
    | .comment c =>
      match acc with
      | [] => parseSeqAux fuel ts num side acc
      | last :: prev =>
        parseSeqAux fuel ts num side
          (last.absorbComment (parseComment c) :: prev)
    | .variationStart => parseSeqAux fuel ts num side acc
    | .nag _ => parseSeqAux fuel ts num side acc

/-- The inner loop collecting `(variation)` groups after a move: each
group recursively parses a fresh sequence (restarting the
number/side state at move 1, White), the closing token is consumed by
the caller (`dropVariationEnd`), and comments between groups are
merged into the node. -/
def parseVars : Nat → MoveNode → List Token → MoveNode × List Token
  | 0, node, ts => (node, ts)
  | fuel + 1, node, .variationStart :: ts =>
    let v := parseSeqAux fuel ts 1 true []
    let sk := skipInterComments (node.addVariation v.1) (dropVariationEnd v.2)
    parseVars fuel sk.1 sk.2
  | _ + 1, node, ts => (node, ts)

end

/-- `PGNParser._parseMoves`: tokenize, then parse one top-level
sequence starting at move 1, White. -/
def parseMoves (text : String) : List MoveNode :=
  let tokens := tokenize text
  (parseSeqAux (tokens.length + 1) tokens 1 true []).1

end PGNParser

namespace PGNParser

/-- Match the header-tag regex `\[(\w+)\s+"([^"]*)"\]` at the head of
the input, returning tag name, value and the remaining input. -/
def headerMatch (cs : List Char) : Option (String × String × List Char) :=
  match cs with
  | '[' :: r1 =>
    let w := r1.takeWhile jsIsWord
    if w.isEmpty then none
    else
      let r2 := r1.dropWhile jsIsWord
      let ws := r2.takeWhile jsIsSpace
      if ws.isEmpty then none
      else
        match r2.dropWhile jsIsSpace with
        | '"' :: r4 =>
          let v := r4.takeWhile (fun c => !(c = '"'))
          match r4.dropWhile (fun c => !(c = '"')) with
          | '"' :: ']' :: r6 => some (String.mk w, String.mk v, r6)
          | _ => none
        | _ => none
  | _ => none

/-- The global scan of `PGNParser._parseHeaders`, collecting matches in
source order. -/
def headerScanAux : Nat → List Char → List (String × String)
  | 0, _ => []
  | _ + 1, [] => []
  | fuel + 1, c :: cs =>
    match headerMatch (c :: cs) with
    | some (name, value, rest) => (name, value) :: headerScanAux fuel rest
    | none => headerScanAux fuel cs

/-- `PGNParser._parseHeaders`. -/
def parseHeaders (text : String) : List (String × String) :=
  headerScanAux (text.data.length + 1) text.data

/-- Look up a header tag.  Repeated assignment to the same key of a
JavaScript object keeps the last value, so the last match wins. -/
def headerLookup (hs : List (String × String)) (k : String) : Option String :=
  (hs.reverse.find? (fun p => p.1 = k)).map (fun p => p.2)

/-- JavaScript `x || d` for an optional header value: a missing key and
the empty string are both falsy. -/
def jsOrDefault (o : Option String) (d : String) : String :=
  match o with
  | some s => if s = "" then d else s
  | none => d

/-- JavaScript `headers['FEN'] || null`. -/
def jsOrNull (o : Option String) : Option String :=
  match o with
  | some s => if s = "" then none else some s
  | none => none

/-- The line loop of `PGNParser._extractMoveText`: header-shaped lines
reset the past-headers flag, the first blank line sets it, and every
other line is collected (trimmed). -/
def extractAux : List String → Bool → List String
  | [], _ => []
  | line :: rest, past =>
    let t := jsTrim line
    if jsStartsWith t '[' ∧ jsEndsWith t ']' then extractAux rest false
    else if t = "" ∧ ¬past then extractAux rest true
    else if past ∨ (¬(jsStartsWith t '[' = true) ∧ t ≠ "") then
      t :: extractAux rest true
    else extractAux rest past

/-- `PGNParser._extractMoveText`. -/
def extractMoveText (text : String) : String :=
  String.intercalate " " (extractAux (jsSplit text '\n') false)

/-- The line loop of `PGNParser._splitGames`: a header line seen after
both headers and moves starts a new game; blank lines alone never
split. -/
def splitGamesAux : List String → List String → Bool → Bool → List String
  | [], currentGame, hasHeaders, _ =>
    if currentGame ≠ [] ∧ hasHeaders then
      [String.intercalate "\n" currentGame]
    else []
  | line :: rest, currentGame, hasHeaders, hasMoves =>
    let t := jsTrim line
    if jsStartsWith t '[' ∧ jsEndsWith t ']' then
      if hasMoves ∧ hasHeaders then
        String.intercalate "\n" currentGame ::
          splitGamesAux rest [t] true false
      else splitGamesAux rest (currentGame ++ [t]) true hasMoves
    else if t = "" then splitGamesAux rest (currentGame ++ [t]) hasHeaders hasMoves
    else splitGamesAux rest (currentGame ++ [t]) hasHeaders true

/-- `PGNParser._splitGames`. -/
def splitGames (text : String) : List String :=
  splitGamesAux (jsSplit text '\n') [] false false

/-- Match the leading game-comment regex `^\s*\{([^}]*)\}\s*`,
returning the comment body and the remaining input. -/
def leadingCommentMatch (cs : List Char) : Option (String × List Char) :=
  match cs.dropWhile jsIsSpace with
  | '{' :: r2 =>
    let body := r2.takeWhile (fun c => !(c = '}'))
    match r2.dropWhile (fun c => !(c = '}')) with
    | '}' :: r3 => some (String.mk body, r3.dropWhile jsIsSpace)
    | _ => none
  | _ => none

/-- A parsed game record, as returned by `PGNParser.parseSingleGame`. -/
structure Game where
  headers : List (String × String)
  white : String
  black : String
  result : String
  eco : String
  fen : Option String
  gameComment : String
  moves : List MoveNode

/-- `PGNParser.parseSingleGame`: extract headers and move text; a game
whose move text trims to the empty string yields no record; otherwise
the optional leading comment is split off and the move tree parsed. -/
def parseSingleGame (gameText : String) : Option Game :=
  let headers := parseHeaders gameText
  let moveText := extractMoveText gameText
  if jsTrim moveText = "" then none
  else
    let split :=
      match leadingCommentMatch moveText.data with
      | some (b, rest) => ((parseComment b).text, String.mk rest)
      | none => ("", moveText)
    some
      { headers := headers
        white := jsOrDefault (headerLookup headers "White") "White"
        black := jsOrDefault (headerLookup headers "Black") "Black"
        result := jsOrDefault (headerLookup headers "Result") "*"
        eco := jsOrDefault (headerLookup headers "ECO") ""
        fen := jsOrNull (headerLookup headers "FEN")
        gameComment := split.1
        moves := parseMoves split.2 }

/-- The preamble-stripping prefix search of `parseMultipleGames`: the
first line that is blank or starts with `[` (index 0 when none
exists). -/
def preambleStart (lines : List String) : Nat :=
  (lines.findIdx?
    (fun l => jsStartsWith (jsTrim l) '[' || jsTrim l = "")).getD 0

/-- `PGNParser.parseMultipleGames`: strip any leading description
lines, split into game blocks, and keep the blocks that parse to a
record (blocks yielding none are dropped silently). -/
def parseMultipleGames (pgnText : String) : List Game :=
  let lines := jsSplit pgnText '\n'
  let text2 := String.intercalate "\n" (lines.drop (preambleStart lines))
  (splitGames text2).filterMap parseSingleGame

/-- `PGNParser.getMainline`: the loop copies the top-level sequence
element by element. -/
def getMainline (moves : List MoveNode) : List MoveNode := moves

end PGNParser

namespace WoodpeckerTrainer

open PGNParser

/-- The result object of a successful `chess.move` call. -/
structure MoveResult where
  san : String
  fen : String
  fromSq : String
  toSq : String
  captured : Bool
  deriving Repr, DecidableEq, Inhabited

/-- The external chess rules engine (chess.js, a CDN dependency outside
this repository).  `applySan` is `chess.move(sanString)` and
`applyFromTo` is `chess.move({from, to, promotion})`, both from a given
position; each returns `none` exactly when the engine rejects the move
(chess.js v0.10.x returns `null` rather than throwing). -/
structure RulesEngine where
  applySan : String → String → Option MoveResult
  applyFromTo : String → String → String → String → Option MoveResult

/-- The FEN of the standard starting position (`chess.reset()`). -/
def standardStartFen : String :=
  "rnbqkbnr/pppppppp/8/8/8/8/PPPPPPPP/RNBQKBNR w KQkq - 0 1"

/-- The engine-side game state: current position and the undo history.
`chess.load(fen)` replaces the position and clears the history;
`chess.undo()` pops one position when the history is nonempty. -/
structure ChessGame where
  fen : String
  history : List String
  deriving Repr, DecidableEq, Inhabited

def ChessGame.load (f : String) : ChessGame := ⟨f, []⟩

def ChessGame.undo : ChessGame → ChessGame
  | ⟨f, []⟩ => ⟨f, []⟩
  | ⟨_, p :: h⟩ => ⟨p, h⟩

def ChessGame.initial : ChessGame := ⟨standardStartFen, []⟩

/-- A saved traversal context, pushed on `moveStack` when entering a
variation.  Frames created by automatic exploration omit the
`playerVariation` key in the source (undefined, hence falsy), modelled
as `false`. -/
structure Frame where
  moves : List MoveNode
  moveIndex : Nat
  chessFen : String
  pendingVariations : List (List MoveNode)
  variationsDone : Bool
  playerVariation : Bool

/-- The `_playerVariationRestore` record saved before a bad-line
auto-playback. -/
structure RestoreCtx where
  chessFen : String
  moves : List MoveNode
  moveIndex : Nat

/-- A completed-puzzle attempt record (wall-clock duration is outside
the model). -/
structure Attempt where
  puzzleIndex : Int
  correct : Bool
  mistakes : Nat
  deriving Repr, DecidableEq, Inhabited

/-- Events emitted through the trainer callbacks (`onStatusChange`,
`onMoveCompleted`, `onPuzzleStart`, `onPuzzleComplete`). -/
inductive WEvent where
  | puzzleStart (puzzleIndex totalPuzzles : Nat) (playerColor : String)
  | moveCompleted (san fromSq toSq : String) (moveIndex : Nat)
  | moveCompletedCorrect (san fromSq toSq : String) (moveIndex : Nat)
  | stYourTurn (moveIndex : Nat) (isVariation : Bool)
  | stEnteringVariation (totalVariations variationNumber : Nat)
  | stExitingVariation
  | stReturnToMainline
  | stIncorrect (mistakes : Nat)
  | stPlayerBadVariation
  | stPlayerGoodVariation
  | puzzleComplete (puzzleIndex : Int) (correct : Bool) (mistakes : Nat)
      (totalAttempts totalSolved : Nat)

/-- The one trainer-scheduled `setTimeout` continuation that may be
outstanding (the engine never has two pending at once); `idle` means
none is scheduled — the trainer is awaiting player input, finished, or
inactive.  Each constructor records the delay in milliseconds it was
scheduled with. -/
inductive Pending where
  | idle
  | processNext (delayMs : Nat)
  | execAndContinue (node : MoveNode) (delayMs : Nat)
  | enterNextVariation (saved : Frame) (delayMs : Nat)
  | restoreMainline (saved : Frame) (delayMs : Nat)
  | yourTurnAfterReturn (delayMs : Nat)
  | autoPlayStep (variationMoves : List MoveNode) (index : Nat) (delayMs : Nat)
  | restorePlayerVariation (delayMs : Nat)

/-- The mutable state of a `WoodpeckerTrainer` instance (board-display
calls, sounds and wall-clock timers are outside the model;
`boardInteractive` is kept because the board only delivers move input
while it is set). -/
structure TrainerState where
  puzzles : List Game
  currentPuzzleIndex : Int
  currentMoves : List MoveNode
  moveIndex : Nat
  playerColor : String
  mistakes : Nat
  isActive : Bool
  isPaused : Bool
  moveStack : List Frame
  variationsDone : Bool
  isInVariation : Bool
  playerVariationRestore : Option RestoreCtx
  isAutoPlaying : Bool
  chess : ChessGame
  boardInteractive : Bool
  sessionAttempts : List Attempt
  events : List WEvent
  pending : Pending

/-- The constructor state of `WoodpeckerTrainer` (a fresh `ChessBoard`
is interactive by default). -/
def initialState : TrainerState where
  puzzles := []
  currentPuzzleIndex := -1
  currentMoves := []
  moveIndex := 0
  playerColor := "w"
  mistakes := 0
  isActive := false
  isPaused := false
  moveStack := []
  variationsDone := false
  isInVariation := false
  playerVariationRestore := none
  isAutoPlaying := false
  chess := ChessGame.initial
  boardInteractive := true
  sessionAttempts := []
  events := []
  pending := .idle

/-- `WoodpeckerTrainer._isPlayerTurn`. -/
def isPlayerTurn (s : TrainerState) (node : MoveNode) : Bool :=
  if s.playerColor = "w" then node.isWhite else !node.isWhite

/-- `WoodpeckerTrainer._normalizeSan`:
`san.replace(/[+#!?]/g, '').trim()`. -/
def normalizeSan (san : String) : String :=
  jsTrim (String.mk (san.data.filter
    (fun c => !(c = '+' || c = '#' || c = '!' || c = '?'))))

/-- `WoodpeckerTrainer._executeMove`: apply the node's SAN through the
rules engine; on success update the position and emit the
move-completed event, on failure (falsy result) change nothing. -/
def executeMove (E : RulesEngine) (s : TrainerState) (node : MoveNode) :
    TrainerState :=
  match E.applySan s.chess.fen node.san with
  | none => s
  | some r =>
    { s with
      chess := ⟨r.fen, s.chess.fen :: s.chess.history⟩
      events := .moveCompleted r.san r.fromSq r.toSq s.moveIndex :: s.events }

/-- `WoodpeckerTrainer._completePuzzle`: record the attempt (solved
exactly when the mistake counter is zero) and emit the
puzzle-complete event. -/
def completePuzzle (s : TrainerState) : TrainerState :=
  let correct : Bool := s.mistakes == 0
  let attempt : Attempt := ⟨s.currentPuzzleIndex, correct, s.mistakes⟩
  let attempts := s.sessionAttempts ++ [attempt]
  { s with
    sessionAttempts := attempts
    events := .puzzleComplete s.currentPuzzleIndex correct s.mistakes
      attempts.length (attempts.filter (fun a => a.correct)).length :: s.events
    pending := .idle }

/-- `WoodpeckerTrainer._startVariationExploration`: snapshot the
current position (taken before the branch-point move is executed),
push the mainline context, enter the first variation at index 0 and
reload the snapshot.  The caller guarantees the variation list is
nonempty. -/
def startVariationExploration (s : TrainerState) (node : MoveNode) :
    TrainerState :=
  match node.variations with
  | [] => s
  | firstVariation :: pendingVariations =>
    let savedFen := s.chess.fen
    { s with
      moveStack := ⟨s.currentMoves, s.moveIndex, savedFen, pendingVariations,
        true, false⟩ :: s.moveStack
      currentMoves := firstVariation
      moveIndex := 0
      isInVariation := true
      chess := ChessGame.load savedFen
      events := .stEnteringVariation node.variations.length 1 :: s.events
      pending := .processNext 800 }

/-- `WoodpeckerTrainer._exitVariation`: pop the stack; with sibling
variations left, schedule entry into the next one; a player-initiated
frame restores immediately and schedules the your-turn prompt;
otherwise the mainline restore is scheduled. -/
def exitVariation (s : TrainerState) : TrainerState :=
  match s.moveStack with
  | [] => completePuzzle s
  | saved :: rest =>
    let s := { s with moveStack := rest }
    if !saved.pendingVariations.isEmpty then
      { s with pending := .enterNextVariation saved 1000 }
    else if saved.playerVariation then
      { s with
        currentMoves := saved.moves
        moveIndex := saved.moveIndex
        variationsDone := false
        isInVariation := !rest.isEmpty
        chess := ChessGame.load saved.chessFen
        events := .stReturnToMainline :: s.events
        pending := .yourTurnAfterReturn 2000 }
    else
      { s with pending := .restoreMainline saved 1000 }

/-- The result of `WoodpeckerTrainer._findMatchingPlayerVariation`. -/
structure MatchedVar where
  variation : List MoveNode
  isBad : Bool
  firstMove : MoveNode

/-- The variation loop of `_findMatchingPlayerVariation`: skip empty
variations; the first whose first move normalizes to the attempt wins;
it is bad exactly when that move's NAG list contains 2 or 4. -/
def findMatchingAux (normalizedAttempt : String) :
    List (List MoveNode) → Option MatchedVar
  | [] => none
  | v :: rest =>
    match v with
    | [] => findMatchingAux normalizedAttempt rest
    | firstMove :: _ =>
      if normalizeSan firstMove.san = normalizedAttempt then
        some ⟨v, firstMove.nags.contains (some 2) ||
          firstMove.nags.contains (some 4), firstMove⟩
      else findMatchingAux normalizedAttempt rest

/-- `WoodpeckerTrainer._findMatchingPlayerVariation`. -/
def findMatchingPlayerVariation (expectedMove : MoveNode)
    (normalizedAttempt : String) : Option MatchedVar :=
  findMatchingAux normalizedAttempt expectedMove.variations

/-- The synchronous body of `WoodpeckerTrainer._autoPlayBadVariation`:
abort if the session ended; past the end of the variation, schedule the
restore after the final pause; otherwise schedule execution of the move
at `index` two seconds out. -/
def autoPlayBadVariationStep (s : TrainerState)
    (variationMoves : List MoveNode) (index : Nat) : TrainerState :=
  if !s.isActive then { s with isAutoPlaying := false, pending := .idle }
  else if variationMoves.length ≤ index then
    { s with
      isAutoPlaying := false
      events := .stReturnToMainline :: s.events
      pending := .restorePlayerVariation 2000 }
  else
    { s with isAutoPlaying := true
             pending := .autoPlayStep variationMoves index 2000 }

/-- `WoodpeckerTrainer._handlePlayerVariation`: a bad line (NAG 2 or 4
on its first move) counts a mistake, keeps the move applied, saves the
pre-move restore context and starts the passive auto-playback from the
variation's second move; a good line pushes the mainline context with
the player-initiated flag and continues interactive traversal inside
the variation from its second move. -/
def handlePlayerVariation (s : TrainerState) (mv : MatchedVar)
    (fenBeforeMove : String) : TrainerState :=
  let s := { s with boardInteractive := false }
  if mv.isBad then
    let s := { s with
      mistakes := s.mistakes + 1
      events := .stPlayerBadVariation :: s.events
      playerVariationRestore :=
        some ⟨fenBeforeMove, s.currentMoves, s.moveIndex⟩ }
    autoPlayBadVariationStep s mv.variation 1
  else
    { s with
      events := .stPlayerGoodVariation :: s.events
      moveStack := ⟨s.currentMoves, s.moveIndex, fenBeforeMove, [], false,
        true⟩ :: s.moveStack
      currentMoves := mv.variation
      moveIndex := 1
      isInVariation := true
      pending := .processNext 800 }

/-- `WoodpeckerTrainer._restoreFromPlayerVariation`: restore the saved
mainline context and position and await the player's move; a missing
context or an ended session only clears the context. -/
def restoreFromPlayerVariation (s : TrainerState) : TrainerState :=
  match s.playerVariationRestore with
  | none => { s with playerVariationRestore := none, pending := .idle }
  | some saved =>
    if !s.isActive then
      { s with playerVariationRestore := none, pending := .idle }
    else
      { s with
        playerVariationRestore := none
        currentMoves := saved.moves
        moveIndex := saved.moveIndex
        isInVariation := !s.moveStack.isEmpty
        chess := ChessGame.load saved.chessFen
        boardInteractive := true
        events := .stYourTurn saved.moveIndex (!s.moveStack.isEmpty) :: s.events
        pending := .idle }

/-- `WoodpeckerTrainer._processNextMove`: at the end of the sequence,
exit the variation or complete the puzzle; at a not-yet-explored
branch point on a non-player move, start automatic exploration;
otherwise schedule the opponent's move or await the player's. -/
def processNextMove (E : RulesEngine) (s : TrainerState) : TrainerState :=
  match s.currentMoves[s.moveIndex]? with
  | none =>
    if !s.moveStack.isEmpty then exitVariation s else completePuzzle s
  | some node =>
    if !node.variations.isEmpty && !s.variationsDone &&
        !(isPlayerTurn s node) then
      startVariationExploration { s with variationsDone := true } node
    else if !(isPlayerTurn s node) then
      { s with variationsDone := false
               pending := .execAndContinue node 300 }
    else
      { s with variationsDone := false
               boardInteractive := true
               events := .stYourTurn s.moveIndex s.isInVariation :: s.events
               pending := .idle }

/-- `WoodpeckerTrainer._handlePlayerMove`: guard, attempt the move
through the rules engine (a rejected move returns with no change),
then branch on exact match / matching player variation / plain wrong
move (which is undone and counted). -/
def handlePlayerMove (E : RulesEngine) (s : TrainerState)
    (fromSq toSq : String) (promotion : Option String) : TrainerState :=
  if !s.isActive || s.currentMoves.length ≤ s.moveIndex then s
  else
    match s.currentMoves[s.moveIndex]? with
    | none => s
    | some expectedMove =>
      let fenBeforeMove := s.chess.fen
      match E.applyFromTo s.chess.fen fromSq toSq (promotion.getD "q") with
      | none => s
      | some r =>
        let chess2 : ChessGame := ⟨r.fen, s.chess.fen :: s.chess.history⟩
        let normalizedAttempt := normalizeSan r.san
        let normalizedExpected := normalizeSan expectedMove.san
        if normalizedAttempt = normalizedExpected then
          { s with
            chess := chess2
            events := .moveCompletedCorrect r.san fromSq toSq s.moveIndex ::
              s.events
            moveIndex := s.moveIndex + 1
            pending := .processNext 300 }
        else
          match findMatchingPlayerVariation expectedMove normalizedAttempt with
          | some mv => handlePlayerVariation { s with chess := chess2 } mv
              fenBeforeMove
          | none =>
            { s with
              chess := chess2.undo
              mistakes := s.mistakes + 1
              events := .stIncorrect (s.mistakes + 1) :: s.events }

/-- Run the outstanding scheduled callback (the body of the
corresponding `setTimeout` closure in the source). -/
def runPending (E : RulesEngine) (s : TrainerState) : TrainerState :=
  match s.pending with
  | .idle => s
  | .processNext _ => processNextMove E s
  | .execAndContinue node _ =>
    processNextMove E
      { executeMove E s node with moveIndex := s.moveIndex + 1 }
  | .enterNextVariation saved _ =>
    match saved.pendingVariations with
    | [] => s
    | nextVariation :: remaining =>
      match saved.moves[saved.moveIndex]? with
      | none => s
      | some branchNode =>
        let totalVariations := branchNode.variations.length
        let variationNumber := totalVariations - remaining.length
        { s with
          moveStack := ⟨saved.moves, saved.moveIndex, saved.chessFen,
            remaining, true, false⟩ :: s.moveStack
          currentMoves := nextVariation
          moveIndex := 0
          isInVariation := true
          chess := ChessGame.load saved.chessFen
          events := .stEnteringVariation totalVariations variationNumber ::
            s.events
          pending := .processNext 1000 }
  | .restoreMainline saved _ =>
    { s with
      currentMoves := saved.moves
      moveIndex := saved.moveIndex
      variationsDone := saved.variationsDone
      isInVariation := !s.moveStack.isEmpty
      chess := ChessGame.load saved.chessFen
      events := .stExitingVariation :: s.events
      pending := .processNext 1000 }
  | .yourTurnAfterReturn _ =>
    { s with
      boardInteractive := true
      events := .stYourTurn s.moveIndex s.isInVariation :: s.events
      pending := .idle }
  | .autoPlayStep vm index _ =>
    if !s.isActive then { s with isAutoPlaying := false, pending := .idle }
    else
      match vm[index]? with
      | none => { s with pending := .idle }
      | some node =>
        autoPlayBadVariationStep (executeMove E s node) vm (index + 1)
  | .restorePlayerVariation _ => restoreFromPlayerVariation s

/-- A player move delivered by the board: the `ChessBoard` only fires
`onMove` while interactive, and the constructor-installed callback
additionally requires an active, unpaused session with no auto-play in
progress. -/
def inputMove (E : RulesEngine) (s : TrainerState) (fromSq toSq : String)
    (promotion : Option String) : TrainerState :=
  if s.boardInteractive && s.isActive && !s.isPaused && !s.isAutoPlaying then
    handlePlayerMove E s fromSq toSq promotion
  else s

/-- The player colour chosen by `startPuzzle`: the FEN active-colour
field when a FEN is present (empty or missing field falls back to
white), otherwise the side of the first move, defaulting to white. -/
def startPlayerColor (fen : Option String) (moves : List MoveNode) : String :=
  match fen with
  | some f =>
    let c := ((jsSplit f ' ').getD 1 "")
    if c = "" then "w" else c
  | none =>
    match moves with
    | m :: _ => if m.isWhite then "w" else "b"
    | [] => "w"

/-- `WoodpeckerTrainer.startPuzzle`: bounds-check the index, reset the
per-puzzle state (mistakes, variation bookkeeping), load the puzzle's
position, emit the puzzle-start event and process the first move
synchronously. -/
def startPuzzle (E : RulesEngine) (s : TrainerState) (puzzleIndex : Nat) :
    TrainerState :=
  match s.puzzles[puzzleIndex]? with
  | none => s
  | some game =>
    let fen :=
      match game.fen with
      | some f => some f
      | none => headerLookup game.headers "FEN"
    let currentMoves := getMainline game.moves
    let s := { s with
      currentPuzzleIndex := (puzzleIndex : Int)
      mistakes := 0
      currentMoves := currentMoves
      chess :=
        match fen with
        | some f => ChessGame.load f
        | none => ChessGame.initial
      playerColor := startPlayerColor fen currentMoves
      moveIndex := 0
      isActive := true
      moveStack := []
      variationsDone := false
      isInVariation := false
      playerVariationRestore := none
      isAutoPlaying := false }
    let s := { s with
      events := .puzzleStart puzzleIndex s.puzzles.length s.playerColor ::
        s.events }
    processNextMove E s

/-- The effect on the traversal state of the session ending (manual
stop, timeout or external teardown): the live-session latch is
cleared.  The scheduled callbacks observe it through their
`isActive` guards. -/
def deactivate (s : TrainerState) : TrainerState :=
  { s with isActive := false }

/-- `WoodpeckerTrainer.loadPuzzles`. -/
def loadPuzzles (s : TrainerState) (games : List Game) : TrainerState :=
  { s with puzzles := games }

/-- `WoodpeckerTrainer.reset` (pending timers are cleared). -/
def resetTrainer (s : TrainerState) : TrainerState :=
  { s with
    isActive := false
    isPaused := false
    currentPuzzleIndex := -1
    currentMoves := []
    moveIndex := 0
    mistakes := 0
    sessionAttempts := []
    moveStack := []
    variationsDone := false
    isInVariation := false
    playerVariationRestore := none
    isAutoPlaying := false
    chess := ChessGame.initial
    pending := .idle }

/-- Iterated scheduled-callback execution. -/
def ticks (E : RulesEngine) : Nat → TrainerState → TrainerState
  | 0, s => s
  | n + 1, s => ticks E n (runPending E s)

/-- One observable transition of a trainer instance: a scheduled
callback firing, a board move event, starting a puzzle, loading
puzzles, the session ending, or a reset. -/
inductive Step (E : RulesEngine) : TrainerState → TrainerState → Prop
  | tick (s : TrainerState) : Step E s (runPending E s)
  | input (s : TrainerState) (fromSq toSq : String)
      (promotion : Option String) :
      Step E s (inputMove E s fromSq toSq promotion)
  | start (s : TrainerState) (idx : Nat) : Step E s (startPuzzle E s idx)
  | load (s : TrainerState) (games : List Game) :
      Step E s (loadPuzzles s games)
  | sessionEnd (s : TrainerState) : Step E s (deactivate s)
  | reset (s : TrainerState) : Step E s (resetTrainer s)

end WoodpeckerTrainer

namespace PGNParser

lemma dropWhile_length_le (p : Char → Bool) (l : List Char) :
    (l.dropWhile p).length ≤ l.length := by
  conv_rhs => rw [← List.takeWhile_append_dropWhile p l]
  simp only [List.length_append]
  omega

lemma dropWhile_length_lt (p : Char → Bool) (l : List Char)
    (h : l.takeWhile p ≠ []) : (l.dropWhile p).length < l.length := by
  conv_rhs => rw [← List.takeWhile_append_dropWhile p l]
  simp only [List.length_append]
  cases e : l.takeWhile p with
  | nil => exact absurd e h
  | cons a t => simp

lemma commentScan_rest_le (cs : List Char) :
    ∀ d : Nat, (commentScan cs d).2.length ≤ cs.length := by
  induction cs with
  | nil => intro d; simp [commentScan]
  | cons c cs ih =>
    intro d
    by_cases h1 : (if c = '{' then d + 1 else if c = '}' then d - 1 else d) = 0
    · simp [commentScan, h1]
    · simp only [commentScan, if_neg h1, List.length_cons]
      exact Nat.le_succ_of_le (ih _)

lemma litMatch_length (l : List Char) :
    ∀ (cs r : List Char), litMatch l cs = some r →
      r.length + l.length = cs.length := by
  induction l with
  | nil => intro cs r h; simp [litMatch] at h; simp [h]
  | cons a t ih =>
    intro cs r h
    cases cs with
    | nil => simp [litMatch] at h
    | cons c cs =>
      simp only [litMatch] at h
      split at h
      · have := ih cs r h
        simp only [List.length_cons]
        omega
      · exact absurd h (by simp)

lemma resultMatch_rest_lt (cs : List Char) (v : String) (r : List Char)
    (h : resultMatch cs = some (v, r)) : r.length < cs.length := by
  unfold resultMatch at h
  split at h
  case _ r1 e =>
    simp only [Option.some.injEq, Prod.mk.injEq] at h
    obtain ⟨-, hr⟩ := h
    subst hr
    have := litMatch_length _ _ _ e
    simp only [List.length_cons, List.length_nil] at this
    omega
  case _ =>
  split at h
  case _ r1 e =>
    simp only [Option.some.injEq, Prod.mk.injEq] at h
    obtain ⟨-, hr⟩ := h
    subst hr
    have := litMatch_length _ _ _ e
    simp only [List.length_cons, List.length_nil] at this
    omega
  case _ =>
  split at h
  case _ r1 e =>
    simp only [Option.some.injEq, Prod.mk.injEq] at h
    obtain ⟨-, hr⟩ := h
    subst hr
    have := litMatch_length _ _ _ e
    simp only [List.length_cons, List.length_nil] at this
    omega
  case _ =>
  split at h
  case _ r1 e =>
    simp only [Option.some.injEq, Prod.mk.injEq] at h
    obtain ⟨-, hr⟩ := h
    subst hr
    have := litMatch_length _ _ _ e
    simp only [List.length_cons, List.length_nil] at this
    omega
  case _ => exact absurd h (by simp)

lemma moveNumberMatch_rest_lt (cs : List Char) (n : Nat) (b : Bool)
    (r : List Char) (h : moveNumberMatch cs = some (n, b, r)) :
    r.length < cs.length := by
  unfold moveNumberMatch at h
  by_cases h0 : (cs.takeWhile Char.isDigit).isEmpty = true
  · simp [h0] at h
  · by_cases hd : takeDots (cs.dropWhile Char.isDigit) 3 = 0
    · simp [h0, hd] at h
    · simp only [h0, hd, if_neg, if_false, Bool.false_eq_true,
        Option.some.injEq, Prod.mk.injEq] at h
      obtain ⟨-, -, hr⟩ := h
      subst hr
      have h1 : (cs.dropWhile Char.isDigit).length < cs.length := by
        apply dropWhile_length_lt
        intro he
        simp_all [List.isEmpty_iff]
      have h2 := dropWhile_length_le jsIsSpace
        ((cs.dropWhile Char.isDigit).drop (takeDots (cs.dropWhile Char.isDigit) 3))
      have h3 := List.length_drop (takeDots (cs.dropWhile Char.isDigit) 3)
        (cs.dropWhile Char.isDigit)
      omega

lemma optConsume_rest_le (use : Bool) (p : Char → Bool) (cs m r : List Char)
    (h : optConsume use p cs = some (m, r)) : r.length ≤ cs.length := by
  unfold optConsume at h
  split at h
  · split at h
    · split at h
      · simp only [Option.some.injEq, Prod.mk.injEq] at h
        obtain ⟨-, hr⟩ := h
        subst hr
        simp
      · exact absurd h (by simp)
    · exact absurd h (by simp)
  · simp only [Option.some.injEq, Prod.mk.injEq] at h
    obtain ⟨-, hr⟩ := h
    subst hr
    exact le_refl _

lemma sanSuffix1_rest_le (cs : List Char) :
    (sanSuffix1 cs).2.length ≤ cs.length := by
  unfold sanSuffix1
  split
  · split <;> simp <;> omega
  · simp

lemma sanSuffix2_rest_le (cs : List Char) :
    (sanSuffix2 cs).2.length ≤ cs.length := by
  unfold sanSuffix2
  split
  · split <;> simp <;> omega
  · simp

lemma sanSuffix_rest_le (cs : List Char) :
    (sanSuffix cs).2.length ≤ cs.length := by
  unfold sanSuffix
  calc (sanSuffix2 (sanSuffix1 cs).2).2.length
      ≤ (sanSuffix1 cs).2.length := sanSuffix2_rest_le _
    _ ≤ cs.length := sanSuffix1_rest_le _

lemma pmAttempt_rest_lt (p f r x : Bool) (cs m rest : List Char)
    (h : pmAttempt p f r x cs = some (m, rest)) : rest.length < cs.length := by
  unfold pmAttempt at h
  split at h
  · exact absurd h (by simp)
  case _ m1 r1 h1 =>
  split at h
  · exact absurd h (by simp)
  case _ m2 r2 h2 =>
  split at h
  · exact absurd h (by simp)
  case _ m3 r3 h3 =>
  split at h
  · exact absurd h (by simp)
  case _ m4 r4 h4 =>
  have l1 := optConsume_rest_le _ _ _ _ _ h1
  have l2 := optConsume_rest_le _ _ _ _ _ h2
  have l3 := optConsume_rest_le _ _ _ _ _ h3
  have l4 := optConsume_rest_le _ _ _ _ _ h4
  split at h
  case _ fc r5 =>
    split at h
    · split at h
      case _ rk r6 =>
        split at h
        · simp only [Option.some.injEq, Prod.mk.injEq] at h
          obtain ⟨-, hr⟩ := h
          subst hr
          have h5 := sanSuffix_rest_le r6
          simp only [List.length_cons] at l4
          omega
        · exact absurd h (by simp)
      case _ => exact absurd h (by simp)
    · exact absurd h (by simp)
  case _ => exact absurd h (by simp)

lemma firstAttempt_rest_lt (combos : List (Bool × Bool × Bool × Bool)) :
    ∀ (cs m rest : List Char), firstAttempt combos cs = some (m, rest) →
      rest.length < cs.length := by
  induction combos with
  | nil => intro cs m rest h; simp [firstAttempt] at h
  | cons q rest2 ih =>
    intro cs m rest h
    obtain ⟨p, f, r, x⟩ := q
    simp only [firstAttempt] at h
    split at h
    · rename_i res e
      rw [h] at e
      exact pmAttempt_rest_lt _ _ _ _ _ _ _ e
    · exact ih cs m rest h

lemma sanMatch_rest_lt (cs m rest : List Char)
    (h : sanMatch cs = some (m, rest)) : rest.length < cs.length := by
  unfold sanMatch at h
  split at h
  case _ r1 e =>
    simp only [Option.some.injEq, Prod.mk.injEq] at h
    obtain ⟨-, hr⟩ := h
    subst hr
    have := litMatch_length _ _ _ e
    simp only [List.length_cons, List.length_nil] at this
    omega
  case _ =>
  split at h
  case _ r1 e =>
    simp only [Option.some.injEq, Prod.mk.injEq] at h
    obtain ⟨-, hr⟩ := h
    subst hr
    have := litMatch_length _ _ _ e
    simp only [List.length_cons, List.length_nil] at this
    omega
  case _ =>
  split at h
  case _ res e =>
    rw [h] at e
    exact firstAttempt_rest_lt _ _ _ _ e
  case _ => exact pmAttempt_rest_lt _ _ _ _ _ _ _ h

lemma annotMatch_rest_lt (cs : List Char) (v : Nat) (rest : List Char)
    (h : annotMatch cs = some (v, rest)) : rest.length < cs.length := by
  unfold annotMatch at h
  split at h
  case _ r1 e =>
    simp only [Option.some.injEq, Prod.mk.injEq] at h
    obtain ⟨-, hr⟩ := h
    subst hr
    have := litMatch_length _ _ _ e
    simp only [List.length_cons, List.length_nil] at this
    omega
  case _ =>
  split at h
  case _ r1 e =>
    simp only [Option.some.injEq, Prod.mk.injEq] at h
    obtain ⟨-, hr⟩ := h
    subst hr
    have := litMatch_length _ _ _ e
    simp only [List.length_cons, List.length_nil] at this
    omega
  case _ =>
  split at h
  case _ r1 e =>
    simp only [Option.some.injEq, Prod.mk.injEq] at h
    obtain ⟨-, hr⟩ := h
    subst hr
    have := litMatch_length _ _ _ e
    simp only [List.length_cons, List.length_nil] at this
    omega
  case _ =>
  split at h
  case _ r1 e =>
    simp only [Option.some.injEq, Prod.mk.injEq] at h
    obtain ⟨-, hr⟩ := h
    subst hr
    have := litMatch_length _ _ _ e
    simp only [List.length_cons, List.length_nil] at this
    omega
  case _ =>
  split at h
  case _ r1 e =>
    simp only [Option.some.injEq, Prod.mk.injEq] at h
    obtain ⟨-, hr⟩ := h
    subst hr
    have := litMatch_length _ _ _ e
    simp only [List.length_cons, List.length_nil] at this
    omega
  case _ =>
  split at h
  case _ r1 e =>
    simp only [Option.some.injEq, Prod.mk.injEq] at h
    obtain ⟨-, hr⟩ := h
    subst hr
    have := litMatch_length _ _ _ e
    simp only [List.length_cons, List.length_nil] at this
    omega
  case _ => exact absurd h (by simp)

lemma tokenizeAux_length_le (fuel : Nat) :
    ∀ cs : List Char, (tokenizeAux fuel cs).length ≤ cs.length := by
  induction fuel with
  | zero => intro cs; simp [tokenizeAux]
  | succ fuel ih =>
    intro cs
    cases cs with
    | nil => simp [tokenizeAux]
    | cons c cs =>
      simp only [tokenizeAux]
      split
      · exact Nat.le_succ_of_le (ih cs)
      split
      · have h1 := commentScan_rest_le cs 1
        have h2 := ih (commentScan cs 1).2
        simp only [List.length_cons]
        omega
      split
      · simpa using ih cs
      split
      · simpa using ih cs
      split
      · have h1 := dropWhile_length_le Char.isDigit cs
        have h2 := ih (cs.dropWhile Char.isDigit)
        simp only [List.length_cons]
        omega
      split
      case _ v rest e =>
        have h1 := resultMatch_rest_lt _ _ _ e
        have h2 := ih rest
        simp only [List.length_cons] at h1 ⊢
        omega
      case _ =>
      split
      case _ n b rest e =>
        have h1 := moveNumberMatch_rest_lt _ _ _ _ e
        have h2 := ih rest
        simp only [List.length_cons] at h1 ⊢
        omega
      case _ =>
      split
      case _ m rest e =>
        have h1 := sanMatch_rest_lt _ _ _ e
        have h2 := ih rest
        simp only [List.length_cons] at h1 ⊢
        omega
      case _ =>
      split
      case _ v rest e =>
        have h1 := annotMatch_rest_lt _ _ _ e
        have h2 := ih rest
        simp only [List.length_cons] at h1 ⊢
        omega
      case _ => exact Nat.le_succ_of_le (ih cs)

end PGNParser

namespace PGNParser

lemma addNag_preserve (node : MoveNode) (v : Option Nat) :
    (node.addNag v).moveNumber = node.moveNumber ∧
    (node.addNag v).isWhite = node.isWhite := by
  cases node
  exact ⟨rfl, rfl⟩

lemma absorbComment_preserve (node : MoveNode) (p : ParsedComment) :
    (node.absorbComment p).moveNumber = node.moveNumber ∧
    (node.absorbComment p).isWhite = node.isWhite := by
  cases node
  exact ⟨rfl, rfl⟩

lemma addVariation_preserve (node : MoveNode) (v : List MoveNode) :
    (node.addVariation v).moveNumber = node.moveNumber ∧
    (node.addVariation v).isWhite = node.isWhite := by
  cases node
  exact ⟨rfl, rfl⟩

lemma absorbAnnots_preserve (ts : List Token) :
    ∀ node : MoveNode,
      (absorbAnnots node ts).1.moveNumber = node.moveNumber ∧
      (absorbAnnots node ts).1.isWhite = node.isWhite := by
  induction ts with
  | nil => intro node; simp [absorbAnnots]
  | cons t ts ih =>
    intro node
    cases t with
    | nag v =>
      have h1 := ih (node.addNag v)
      have h2 := addNag_preserve node v
      simp only [absorbAnnots]
      exact ⟨h1.1.trans h2.1, h1.2.trans h2.2⟩
    | comment c =>
      have h1 := ih (node.absorbComment (parseComment c))
      have h2 := absorbComment_preserve node (parseComment c)
      simp only [absorbAnnots]
      exact ⟨h1.1.trans h2.1, h1.2.trans h2.2⟩
    | variationStart => simp [absorbAnnots]
    | variationEnd => simp [absorbAnnots]
    | result v => simp [absorbAnnots]
    | moveNumber n b => simp [absorbAnnots]
    | move s => simp [absorbAnnots]

lemma skipInterComments_preserve (ts : List Token) :
    ∀ node : MoveNode,
      (skipInterComments node ts).1.moveNumber = node.moveNumber ∧
      (skipInterComments node ts).1.isWhite = node.isWhite := by
  induction ts with
  | nil => intro node; simp [skipInterComments]
  | cons t ts ih =>
    intro node
    cases t with
    | comment c =>
      have h1 := ih (node.absorbComment (parseComment c))
      have h2 := absorbComment_preserve node (parseComment c)
      simp only [skipInterComments]
      exact ⟨h1.1.trans h2.1, h1.2.trans h2.2⟩
    | nag v => simp [skipInterComments]
    | variationStart => simp [skipInterComments]
    | variationEnd => simp [skipInterComments]
    | result v => simp [skipInterComments]
    | moveNumber n b => simp [skipInterComments]
    | move s => simp [skipInterComments]

lemma parseVars_preserve (fuel : Nat) :
    ∀ (node : MoveNode) (ts : List Token),
      (parseVars fuel node ts).1.moveNumber = node.moveNumber ∧
      (parseVars fuel node ts).1.isWhite = node.isWhite := by
  induction fuel with
  | zero => intro node ts; simp [parseVars]
  | succ fuel ih =>
    intro node ts
    cases ts with
    | nil => simp [parseVars]
    | cons t ts =>
      cases t with
      | variationStart =>
        simp only [parseVars]
        have h1 := ih (skipInterComments
            (node.addVariation (parseSeqAux fuel ts 1 true []).1)
            (dropVariationEnd (parseSeqAux fuel ts 1 true []).2)).1
          (skipInterComments
            (node.addVariation (parseSeqAux fuel ts 1 true []).1)
            (dropVariationEnd (parseSeqAux fuel ts 1 true []).2)).2
        have h2 := skipInterComments_preserve
          (dropVariationEnd (parseSeqAux fuel ts 1 true []).2)
          (node.addVariation (parseSeqAux fuel ts 1 true []).1)
        have h3 := addVariation_preserve node (parseSeqAux fuel ts 1 true []).1
        exact ⟨(h1.1.trans h2.1).trans h3.1, (h1.2.trans h2.2).trans h3.2⟩
      | nag v => simp [parseVars]
      | comment c => simp [parseVars]
      | variationEnd => simp [parseVars]
      | result v => simp [parseVars]
      | moveNumber n b => simp [parseVars]
      | move s => simp [parseVars]

end PGNParser

namespace PGNParser

set_option maxRecDepth 8000

/-- Claim C8: for every input string — including malformed input with
unmatched braces, dollar signs without digits, and arbitrary
unscannable characters — the tokenizer terminates after a single
left-to-right pass (it is a total function whose output size is
bounded by the input size, so the token list is always finite and no
exception can occur), and every character at which no scanner rule
matches is silently skipped. -/
theorem tokenizer_total_single_pass :
    (∀ s : String, (tokenize s).length ≤ s.length) ∧
    (∀ (fuel : Nat) (c : Char) (cs : List Char),
      jsIsSpace c = false → c ≠ '{' → c ≠ '(' → c ≠ ')' → c ≠ '$' →
      resultMatch (c :: cs) = none → moveNumberMatch (c :: cs) = none →
      sanMatch (c :: cs) = none → annotMatch (c :: cs) = none →
      tokenizeAux (fuel + 1) (c :: cs) = tokenizeAux fuel cs) := by
  constructor
  · intro s
    exact tokenizeAux_length_le (s.length + 1) s.data
  · intro fuel c cs h1 h2 h3 h4 h5 h6 h7 h8 h9
    simp only [tokenizeAux, h1, h2, h3, h4, h5, h6, h7, h8, h9,
      Bool.false_eq_true, if_false]

/-- Witness for C8: the character `&` matches no scanner rule and is
silently skipped, so tokenizing `&e4` equals tokenizing `e4`. -/
theorem tokenizer_total_single_pass_witness :
    jsIsSpace '&' = false ∧
    resultMatch ['&', 'e', '4'] = none ∧
    sanMatch ['&', 'e', '4'] = none ∧
    tokenizeAux 4 ['&', 'e', '4'] = tokenizeAux 3 ['e', '4'] :=
  ⟨by decide, by decide, by decide,
   tokenizer_total_single_pass.2 3 '&' ['e', '4'] (by decide) (by decide)
     (by decide) (by decide) (by decide) (by decide) (by decide) (by decide)
     (by decide)⟩

/-- Claim C7: the tree builder assigns each parsed move node its move
number and side from the most recent move-number token — defaulting to
move 1, White, at the start of every sequence, including every
recursively parsed variation sequence — and after each parsed move
advances automatically (a White move keeps the number and switches the
expected side to Black; a Black move switches to White and increments
the number), unless overridden by a subsequent explicit move-number
token.  Stated as the characterizing equations of the sequence loop:
(1) the top-level sequence starts at move 1, White; (2) a move-number
token overrides the state; (3) a move token creates its node from the
current state and the state then advances as described; (4, 5)
absorbing annotations, comments and variation groups never changes the
node's recorded number or side; (6) every recursively parsed variation
sequence restarts at move 1, White; (7) a fresh node records exactly
the current state. -/
theorem treeBuilder_move_numbering :
    (∀ text : String,
      parseMoves text =
        (parseSeqAux ((tokenize text).length + 1) (tokenize text) 1 true
          []).1) ∧
    (∀ (fuel : Nat) (ts : List Token) (n : Nat) (b : Bool) (num : Nat)
        (side : Bool) (acc : List MoveNode),
      parseSeqAux (fuel + 1) (Token.moveNumber n b :: ts) num side acc =
        parseSeqAux fuel ts n (!b) acc) ∧
    (∀ (fuel : Nat) (ts : List Token) (san : String) (num : Nat)
        (side : Bool) (acc : List MoveNode),
      parseSeqAux (fuel + 1) (Token.move san :: ts) num side acc =
        parseSeqAux fuel
          (parseVars fuel (absorbAnnots (MoveNode.fresh san num side) ts).1
            (absorbAnnots (MoveNode.fresh san num side) ts).2).2
          (if side then num else num + 1) (!side)
          ((parseVars fuel (absorbAnnots (MoveNode.fresh san num side) ts).1
            (absorbAnnots (MoveNode.fresh san num side) ts).2).1 :: acc)) ∧
    (∀ (ts : List Token) (node : MoveNode),
      (absorbAnnots node ts).1.moveNumber = node.moveNumber ∧
      (absorbAnnots node ts).1.isWhite = node.isWhite) ∧
    (∀ (fuel : Nat) (node : MoveNode) (ts : List Token),
      (parseVars fuel node ts).1.moveNumber = node.moveNumber ∧
      (parseVars fuel node ts).1.isWhite = node.isWhite) ∧
    (∀ (fuel : Nat) (node : MoveNode) (ts : List Token),
      parseVars (fuel + 1) node (Token.variationStart :: ts) =
        parseVars fuel
          (skipInterComments
            (node.addVariation (parseSeqAux fuel ts 1 true []).1)
            (dropVariationEnd (parseSeqAux fuel ts 1 true []).2)).1
          (skipInterComments
            (node.addVariation (parseSeqAux fuel ts 1 true []).1)
            (dropVariationEnd (parseSeqAux fuel ts 1 true []).2)).2) ∧
    (∀ (san : String) (num : Nat) (side : Bool),
      (MoveNode.fresh san num side).moveNumber = num ∧
      (MoveNode.fresh san num side).isWhite = side) :=
  ⟨fun _ => rfl,
   fun _ _ _ _ _ _ _ => rfl,
   fun _ _ _ _ _ _ => rfl,
   fun ts node => absorbAnnots_preserve ts node,
   fun fuel node ts => parseVars_preserve fuel node ts,
   fun _ _ _ => rfl,
   fun _ _ _ => ⟨rfl, rfl⟩⟩

/-- Counterexample for C9: the input `[Event "x"]` followed by the
move text `*` is a game block whose move text tokenizes to a lone
result marker, hence yields zero parsed moves — yet `parseMultipleGames`
produces one Game record (with an empty move list) for it instead of
dropping it. -/
theorem zero_move_block_not_dropped :
    (parseMultipleGames "[Event \"x\"]\n\n*").length = 1 ∧
    ((parseMultipleGames "[Event \"x\"]\n\n*")[0]?).map
      (fun g => g.moves.isEmpty) = some true := by
  constructor
  · decide
  · decide

/-- Claim C9 (amended): a game block is dropped silently by
`parseSingleGame` (and hence from `parseMultipleGames`, which keeps
exactly the blocks that parse) if and only if its extracted move text
trims to the empty string; a block with nonempty move text always
produces a record — even when that text parses to zero move nodes —
and no error is ever raised (both functions are total). -/
theorem empty_move_text_dropped_iff :
    (∀ gameText : String,
      parseSingleGame gameText = none ↔
        jsTrim (extractMoveText gameText) = "") ∧
    (∀ pgnText : String,
      parseMultipleGames pgnText =
        (splitGames (String.intercalate "\n"
          ((jsSplit pgnText '\n').drop
            (preambleStart (jsSplit pgnText '\n'))))).filterMap
          parseSingleGame) := by
  constructor
  · intro gameText
    by_cases h : jsTrim (extractMoveText gameText) = "" <;>
      simp [parseSingleGame, h]
  · intro pgnText
    rfl

end PGNParser

namespace WoodpeckerTrainer

open PGNParser

/-- The relation between `isInVariation` and the context stack that
holds whenever no variation-switch callback is in flight.  During the
two windows in which `_exitVariation` has already popped the stack but
the scheduled callback has not yet re-pushed or restored
(`enterNextVariation` / `restoreMainline` pending), the flag may lead
the stack; in those windows the current sequence is necessarily
exhausted, which is what keeps every other transition out. -/
def stackInv (s : TrainerState) : Prop :=
  match s.pending with
  | .enterNextVariation _ _ => s.currentMoves.length ≤ s.moveIndex
  | .restoreMainline _ _ => s.currentMoves.length ≤ s.moveIndex
  | _ => s.isInVariation = !s.moveStack.isEmpty

lemma stackInv_completePuzzle (s : TrainerState)
    (h : s.isInVariation = !s.moveStack.isEmpty) :
    stackInv (completePuzzle s) := by
  simp only [completePuzzle, stackInv]
  exact h

lemma stackInv_exitVariation (s : TrainerState)
    (hp : s.currentMoves.length ≤ s.moveIndex)
    (h : s.isInVariation = !s.moveStack.isEmpty) :
    stackInv (exitVariation s) := by
  unfold exitVariation
  match hs : s.moveStack with
  | [] => exact stackInv_completePuzzle s h
  | saved :: rest =>
    by_cases h1 : saved.pendingVariations.isEmpty
    · by_cases h2 : saved.playerVariation
      · simp [h1, h2, stackInv]
      · simp only [h1, h2, stackInv, Bool.not_true, Bool.false_eq_true,
          if_false]
        exact hp
    · simp only [h1, stackInv, Bool.not_false, if_true]
      exact hp

lemma stackInv_startVariationExploration (s : TrainerState)
    (node : MoveNode) (hv : node.variations ≠ []) :
    stackInv (startVariationExploration s node) := by
  unfold startVariationExploration
  match hn : node.variations with
  | [] => exact absurd hn hv
  | v :: vs => simp [stackInv]

lemma stackInv_processNextMove (E : RulesEngine) (s : TrainerState)
    (h : s.isInVariation = !s.moveStack.isEmpty) :
    stackInv (processNextMove E s) := by
  unfold processNextMove
  match hn : s.currentMoves[s.moveIndex]? with
  | none =>
    by_cases hst : s.moveStack.isEmpty
    · simp only [hst, Bool.not_true, Bool.false_eq_true, if_false]
      exact stackInv_completePuzzle s h
    · simp only [hst, Bool.not_false, if_true]
      exact stackInv_exitVariation s
        (by
          rcases List.getElem?_eq_none_iff.mp hn with hle
          exact hle) h
  | some node =>
    by_cases hg : (!node.variations.isEmpty && !s.variationsDone &&
        !(isPlayerTurn s node)) = true
    · simp only [hg, if_true]
      apply stackInv_startVariationExploration
      intro he
      simp [he] at hg
    · simp only [hg, Bool.false_eq_true, if_false]
      by_cases ht : isPlayerTurn s node = true
      · simp only [ht, Bool.not_true, Bool.false_eq_true, if_false, stackInv]
        exact h
      · simp only [Bool.not_eq_true] at ht
        simp only [ht, Bool.not_false, if_true, stackInv]
        exact h

lemma stackInv_autoPlayBadVariationStep (s : TrainerState)
    (vm : List MoveNode) (i : Nat)
    (h : s.isInVariation = !s.moveStack.isEmpty) :
    stackInv (autoPlayBadVariationStep s vm i) := by
  unfold autoPlayBadVariationStep
  by_cases h1 : s.isActive
  · simp only [h1, Bool.not_true, Bool.false_eq_true, if_false]
    by_cases h2 : vm.length ≤ i
    · simp only [h2, if_true, stackInv]
      exact h
    · simp only [h2, if_false, stackInv]
      exact h
  · simp only [Bool.not_eq_true', Bool.not_eq_false] at h1
    simp only [h1, Bool.not_false, if_true, stackInv]
    exact h

lemma executeMove_frame (E : RulesEngine) (s : TrainerState)
    (node : MoveNode) :
    (executeMove E s node).moveStack = s.moveStack ∧
    (executeMove E s node).isInVariation = s.isInVariation ∧
    (executeMove E s node).pending = s.pending ∧
    (executeMove E s node).currentMoves = s.currentMoves ∧
    (executeMove E s node).moveIndex = s.moveIndex ∧
    (executeMove E s node).isActive = s.isActive ∧
    (executeMove E s node).mistakes = s.mistakes ∧
    (executeMove E s node).playerVariationRestore =
      s.playerVariationRestore ∧
    (executeMove E s node).boardInteractive = s.boardInteractive ∧
    (executeMove E s node).isPaused = s.isPaused ∧
    (executeMove E s node).isAutoPlaying = s.isAutoPlaying ∧
    (executeMove E s node).moveStack = s.moveStack := by
  unfold executeMove
  match E.applySan s.chess.fen node.san with
  | none => exact ⟨rfl, rfl, rfl, rfl, rfl, rfl, rfl, rfl, rfl, rfl, rfl, rfl⟩
  | some r => exact ⟨rfl, rfl, rfl, rfl, rfl, rfl, rfl, rfl, rfl, rfl, rfl, rfl⟩

lemma stackInv_runPending (E : RulesEngine) (s : TrainerState)
    (h : stackInv s) : stackInv (runPending E s) := by
  unfold runPending
  match hp : s.pending with
  | .idle => exact h
  | .processNext d =>
    have h2 : s.isInVariation = !s.moveStack.isEmpty := by
      unfold stackInv at h; rw [hp] at h; exact h
    exact stackInv_processNextMove E s h2
  | .execAndContinue node d =>
    have h2 : s.isInVariation = !s.moveStack.isEmpty := by
      unfold stackInv at h; rw [hp] at h; exact h
    apply stackInv_processNextMove
    have hf := executeMove_frame E s node
    simp only [hf.1, hf.2.1]
    exact h2
  | .enterNextVariation saved d =>
    cases hpv : saved.pendingVariations with
    | nil =>
      simp only [hpv]
      exact h
    | cons nv remaining =>
      cases hbm : saved.moves[saved.moveIndex]? with
      | none =>
        simp only [hpv, hbm]
        exact h
      | some branchNode => simp [stackInv, hpv, hbm]
  | .restoreMainline saved d =>
    simp [stackInv]
  | .yourTurnAfterReturn d =>
    have h2 : s.isInVariation = !s.moveStack.isEmpty := by
      unfold stackInv at h; rw [hp] at h; exact h
    simp only [stackInv]
    exact h2
  | .autoPlayStep vm i d =>
    have h2 : s.isInVariation = !s.moveStack.isEmpty := by
      unfold stackInv at h; rw [hp] at h; exact h
    by_cases h1 : s.isActive
    · simp only [h1, Bool.not_true, Bool.false_eq_true, if_false]
      cases hv : vm[i]? with
      | none =>
        simp only [hv, stackInv]
        exact h2
      | some node =>
        simp only [hv]
        apply stackInv_autoPlayBadVariationStep
        have hf := executeMove_frame E s node
        simp only [hf.1, hf.2.1]
        exact h2
    · simp only [Bool.not_eq_true', Bool.not_eq_false] at h1
      simp only [h1, Bool.not_false, if_true, stackInv]
      exact h2
  | .restorePlayerVariation d =>
    have h2 : s.isInVariation = !s.moveStack.isEmpty := by
      unfold stackInv at h; rw [hp] at h; exact h
    unfold restoreFromPlayerVariation
    cases hq : s.playerVariationRestore with
    | none =>
      simp only [hq, stackInv]
      exact h2
    | some saved =>
      by_cases h1 : s.isActive
      · simp only [hq, h1, Bool.not_true, Bool.false_eq_true, if_false]
        simp [stackInv]
      · simp only [Bool.not_eq_true', Bool.not_eq_false] at h1
        simp only [hq, h1, Bool.not_false, if_true, stackInv]
        exact h2

end WoodpeckerTrainer

namespace WoodpeckerTrainer

open PGNParser

lemma stackInv_eq_of_lt (s : TrainerState)
    (hlt : s.moveIndex < s.currentMoves.length) (h : stackInv s) :
    s.isInVariation = !s.moveStack.isEmpty := by
  unfold stackInv at h
  revert h
  cases hp : s.pending <;> intro h
  case enterNextVariation saved d =>
    have h2 : s.currentMoves.length ≤ s.moveIndex := h
    omega
  case restoreMainline saved d =>
    have h2 : s.currentMoves.length ≤ s.moveIndex := h
    omega
  all_goals exact h

lemma stackInv_same_fields (s s2 : TrainerState) (h : stackInv s)
    (hpend : s2.pending = s.pending)
    (hm : s2.currentMoves = s.currentMoves) (hi : s2.moveIndex = s.moveIndex)
    (hv : s2.isInVariation = s.isInVariation)
    (hst : s2.moveStack = s.moveStack) : stackInv s2 := by
  unfold stackInv at h ⊢
  rw [hpend, hm, hi, hv, hst]
  exact h

lemma stackInv_handlePlayerVariation (s : TrainerState) (mv : MatchedVar)
    (fen : String) (h : s.isInVariation = !s.moveStack.isEmpty) :
    stackInv (handlePlayerVariation s mv fen) := by
  unfold handlePlayerVariation
  by_cases hb : mv.isBad
  · simp only [hb, if_true]
    exact stackInv_autoPlayBadVariationStep _ _ _ h
  · simp only [hb, Bool.false_eq_true, if_false]
    simp [stackInv]

lemma stackInv_handlePlayerMove (E : RulesEngine) (s : TrainerState)
    (f t : String) (p : Option String) (h : stackInv s) :
    stackInv (handlePlayerMove E s f t p) := by
  unfold handlePlayerMove
  split
  · exact h
  · rename_i hg
    have hlt : s.moveIndex < s.currentMoves.length := by
      simp only [Bool.or_eq_true, Bool.not_eq_true', decide_eq_true_eq,
        not_or] at hg
      push_neg at hg
      omega
    have h2 := stackInv_eq_of_lt s hlt h
    cases he : s.currentMoves[s.moveIndex]? with
    | none =>
      have := List.getElem?_eq_none_iff.mp he
      omega
    | some expectedMove =>
      cases ha : E.applyFromTo s.chess.fen f t (p.getD "q") with
      | none =>
        simp only [he, ha]
        exact h
      | some r =>
        by_cases hm : normalizeSan r.san = normalizeSan expectedMove.san
        · simp only [he, ha, hm, if_true]
          simp only [stackInv]
          exact h2
        · simp only [he, ha, hm, if_false]
          cases hf : findMatchingPlayerVariation expectedMove
              (normalizeSan r.san) with
          | some mv =>
            simp only [hf]
            exact stackInv_handlePlayerVariation _ mv _ h2
          | none =>
            simp only [hf]
            refine stackInv_same_fields s _ h rfl rfl rfl rfl rfl

lemma stackInv_inputMove (E : RulesEngine) (s : TrainerState)
    (f t : String) (p : Option String) (h : stackInv s) :
    stackInv (inputMove E s f t p) := by
  unfold inputMove
  split
  · exact stackInv_handlePlayerMove E s f t p h
  · exact h

lemma stackInv_startPuzzle (E : RulesEngine) (s : TrainerState) (idx : Nat)
    (h : stackInv s) : stackInv (startPuzzle E s idx) := by
  unfold startPuzzle
  cases hg : s.puzzles[idx]? with
  | none => exact h
  | some game =>
    simp only [hg]
    exact stackInv_processNextMove E _ rfl

lemma stackInv_deactivate (s : TrainerState) (h : stackInv s) :
    stackInv (deactivate s) :=
  stackInv_same_fields s _ h rfl rfl rfl rfl rfl

lemma stackInv_loadPuzzles (s : TrainerState) (games : List Game)
    (h : stackInv s) : stackInv (loadPuzzles s games) :=
  stackInv_same_fields s _ h rfl rfl rfl rfl rfl

lemma stackInv_resetTrainer (s : TrainerState) :
    stackInv (resetTrainer s) := by
  simp [stackInv, resetTrainer]

/-- Claim C10: at every quiescent point of a traversal session (no
scheduled callback in flight), `isInVariation` is true exactly when
the variation context stack is non-empty.  The strengthened invariant
`stackInv` holds at the constructor state and is preserved by every
observable transition (callback, board input, puzzle start, puzzle
load, session end, reset); at `idle` pendings it specializes to the
claimed equivalence. -/
theorem isInVariation_tracks_stack :
    stackInv initialState ∧
    (∀ (E : RulesEngine) (s s2 : TrainerState), stackInv s →
      Step E s s2 → stackInv s2) ∧
    (∀ s : TrainerState, stackInv s → s.pending = Pending.idle →
      (s.isInVariation = true ↔ s.moveStack ≠ [])) := by
  refine ⟨?_, ?_, ?_⟩
  · simp [stackInv, initialState]
  · intro E s s2 h hs
    cases hs with
    | tick => exact stackInv_runPending E s h
    | input f t p => exact stackInv_inputMove E s f t p h
    | start idx => exact stackInv_startPuzzle E s idx h
    | load games => exact stackInv_loadPuzzles s games h
    | sessionEnd => exact stackInv_deactivate s h
    | reset => exact stackInv_resetTrainer s
  · intro s h hp
    have h2 : s.isInVariation = !s.moveStack.isEmpty := by
      unfold stackInv at h
      rw [hp] at h
      exact h
    rw [h2]
    simp [List.isEmpty_iff]

/-- The trivial rules engine used to instantiate witnesses (the engine
is an external collaborator, universally quantified in the theorems). -/
def EW : RulesEngine := ⟨fun _ _ => none, fun _ _ _ _ => none⟩

/-- Witness for C10: the invariant transfers along a concrete step
from the constructor state, and the equivalence holds there. -/
theorem isInVariation_tracks_stack_witness :
    stackInv (runPending EW initialState) ∧
    (initialState.isInVariation = true ↔ initialState.moveStack ≠ []) :=
  ⟨isInVariation_tracks_stack.2.1 EW initialState
     (runPending EW initialState) isInVariation_tracks_stack.1
     (Step.tick initialState),
   isInVariation_tracks_stack.2.2 initialState
     isInVariation_tracks_stack.1 rfl⟩

end WoodpeckerTrainer

namespace WoodpeckerTrainer

open PGNParser

/-- A concrete opponent-side branch-point node (Black to move, one
variation), used to instantiate witnesses. -/
def sampleOppNode : MoveNode :=
  .mk "Kxd7" 1 false "" [] [] [] [[MoveNode.fresh "Rxb4" 1 false]]

/-- A concrete trainer state awaiting traversal at `sampleOppNode`
with the player as White, used to instantiate witnesses. -/
def sampleOppState : TrainerState :=
  { initialState with
    currentMoves := [sampleOppNode]
    moveIndex := 0
    playerColor := "w"
    isActive := true
    chess := ChessGame.load "f1" }

/-- Claim C6: in every state, automatic variation exploration happens
exactly at not-yet-explored branch points whose move belongs to the
non-player side — the entering-variation status is emitted if and only
if the node has variations, the explored flag is clear, and the node
is not the player's; the condition mentions nothing else, so
opponent-side auto-exploration is unconditional.  A player-side node
always yields the awaiting-player state (its variations are never
entered by `_processNextMove`); the only other route into a variation,
`_findMatchingPlayerVariation`, requires the player's normalized
attempt to equal the variation's first move. -/
theorem auto_explore_only_opponent :
    (∀ (E : RulesEngine) (s : TrainerState) (node : MoveNode),
      s.currentMoves[s.moveIndex]? = some node →
      ((∃ tot vn, (processNextMove E s).events =
          WEvent.stEnteringVariation tot vn :: s.events) ↔
        (node.variations ≠ [] ∧ s.variationsDone = false ∧
          isPlayerTurn s node = false))) ∧
    (∀ (E : RulesEngine) (s : TrainerState) (node : MoveNode),
      s.currentMoves[s.moveIndex]? = some node →
      isPlayerTurn s node = true →
      processNextMove E s =
        { s with
          variationsDone := false
          boardInteractive := true
          events := WEvent.stYourTurn s.moveIndex s.isInVariation :: s.events
          pending := Pending.idle }) ∧
    (∀ (expectedMove : MoveNode) (att : String) (mv : MatchedVar),
      findMatchingPlayerVariation expectedMove att = some mv →
      ∃ rest, mv.variation = mv.firstMove :: rest ∧
        normalizeSan mv.firstMove.san = att) := by
  refine ⟨?_, ?_, ?_⟩
  · intro E s node hn
    unfold processNextMove
    rw [hn]
    by_cases hg : (!node.variations.isEmpty && !s.variationsDone &&
        !(isPlayerTurn s node)) = true
    · simp only [hg, if_true]
      simp only [Bool.and_eq_true, Bool.not_eq_true'] at hg
      constructor
      · intro _
        refine ⟨?_, hg.1.2, hg.2⟩
        intro hv
        rw [hv] at hg
        simp at hg
      · intro _
        unfold startVariationExploration
        cases hvs : node.variations with
        | nil => rw [hvs] at hg; simp at hg
        | cons v vs => exact ⟨(v :: vs).length, 1, rfl⟩
    · simp only [hg, Bool.false_eq_true, if_false]
      constructor
      · intro hex
        by_cases ht : isPlayerTurn s node = true
        · simp only [ht, Bool.not_true, Bool.false_eq_true, if_false] at hex
          obtain ⟨tot, vn, hev⟩ := hex
          simp at hev
        · simp only [Bool.not_eq_true] at ht
          simp only [ht, Bool.not_false, if_true] at hex
          obtain ⟨tot, vn, hev⟩ := hex
          exact absurd hev (List.cons_ne_self _ _).symm
      · intro ⟨h1, h2, h3⟩
        exfalso
        apply hg
        simp [h1, h2, h3, List.isEmpty_iff]
  · intro E s node hn ht
    unfold processNextMove
    rw [hn]
    simp only [ht, Bool.not_true, Bool.and_false, Bool.false_eq_true, if_false]
  · intro expectedMove att mv
    unfold findMatchingPlayerVariation
    generalize expectedMove.variations = vars
    induction vars with
    | nil => intro h; simp [findMatchingAux] at h
    | cons v rest ih =>
      intro h
      cases v with
      | nil =>
        simp only [findMatchingAux] at h
        exact ih h
      | cons fm vrest =>
        simp only [findMatchingAux] at h
        split at h
        · rename_i heq
          simp only [Option.some.injEq] at h
          subst h
          exact ⟨vrest, rfl, heq⟩
        · exact ih h

/-- Witness for C6: at `sampleOppState` the branch node is
opponent-side with an unexplored variation, so the engine emits the
entering-variation status unconditionally. -/
theorem auto_explore_only_opponent_witness :
    ∃ tot vn, (processNextMove EW sampleOppState).events =
      WEvent.stEnteringVariation tot vn :: sampleOppState.events :=
  (auto_explore_only_opponent.1 EW sampleOppState sampleOppNode rfl).mpr
    ⟨by simp [sampleOppNode, MoveNode.variations], rfl, rfl⟩

end WoodpeckerTrainer

namespace WoodpeckerTrainer

open PGNParser

/-- Claim C1: every entry into a variation restores the rules-engine
position to the snapshot taken immediately before the branch-point
move was played, never the position after it.  (1) Auto-exploring an
opponent-side branch point: the position snapshot is taken while the
branch move (the node still sitting at the current index) is
unapplied, the engine reloads exactly that position, and the pushed
frame records it together with the pre-branch index; consequently the
restored position differs from the position the branch move would
produce whenever the engine distinguishes them.  (2) Entering the next
sibling variation reloads exactly the frame's stored pre-branch
snapshot at index 0.  (3) Exiting back to the containing sequence
reloads the same stored snapshot and the saved index. -/
theorem variation_entry_restores_prebranch :
    (∀ (E : RulesEngine) (s : TrainerState) (node : MoveNode)
        (v : List MoveNode) (vs : List (List MoveNode)),
      s.currentMoves[s.moveIndex]? = some node →
      node.variations = v :: vs →
      s.variationsDone = false →
      isPlayerTurn s node = false →
      (processNextMove E s).chess = ChessGame.load s.chess.fen ∧
      (processNextMove E s).moveStack =
        ⟨s.currentMoves, s.moveIndex, s.chess.fen, vs, true, false⟩ ::
          s.moveStack ∧
      (processNextMove E s).currentMoves = v ∧
      (processNextMove E s).moveIndex = 0 ∧
      (processNextMove E s).isInVariation = true ∧
      (processNextMove E s).pending = Pending.processNext 800 ∧
      (∀ r : MoveResult, E.applySan s.chess.fen node.san = some r →
        r.fen ≠ s.chess.fen → (processNextMove E s).chess.fen ≠ r.fen)) ∧
    (∀ (E : RulesEngine) (s : TrainerState) (saved : Frame) (d : Nat)
        (nv : List MoveNode) (remaining : List (List MoveNode))
        (bn : MoveNode),
      s.pending = Pending.enterNextVariation saved d →
      saved.pendingVariations = nv :: remaining →
      saved.moves[saved.moveIndex]? = some bn →
      (runPending E s).chess = ChessGame.load saved.chessFen ∧
      (runPending E s).currentMoves = nv ∧
      (runPending E s).moveIndex = 0 ∧
      (runPending E s).isInVariation = true ∧
      (runPending E s).moveStack =
        ⟨saved.moves, saved.moveIndex, saved.chessFen, remaining, true,
          false⟩ :: s.moveStack ∧
      (runPending E s).pending = Pending.processNext 1000) ∧
    (∀ (E : RulesEngine) (s : TrainerState) (saved : Frame) (d : Nat),
      s.pending = Pending.restoreMainline saved d →
      (runPending E s).chess = ChessGame.load saved.chessFen ∧
      (runPending E s).currentMoves = saved.moves ∧
      (runPending E s).moveIndex = saved.moveIndex ∧
      (runPending E s).variationsDone = saved.variationsDone ∧
      (runPending E s).pending = Pending.processNext 1000) := by
  refine ⟨?_, ?_, ?_⟩
  · intro E s node v vs hn hvs hd ht
    unfold processNextMove
    rw [hn]
    have hg : (!node.variations.isEmpty && !s.variationsDone &&
        !(isPlayerTurn s node)) = true := by
      simp [hvs, hd, ht]
    simp only [hg, if_true]
    unfold startVariationExploration
    rw [hvs]
    refine ⟨rfl, rfl, rfl, rfl, rfl, rfl, ?_⟩
    intro r _ hne he
    exact hne he.symm
  · intro E s saved d nv remaining bn hp hpv hbm
    unfold runPending
    rw [hp]
    simp [hpv, hbm]
  · intro E s saved d hp
    unfold runPending
    rw [hp]
    exact ⟨rfl, rfl, rfl, rfl, rfl⟩

/-- Witness for C1: auto-exploring the branch point of
`sampleOppState` reloads exactly the pre-branch position `f1` (with
the branch move `Kxd7` still unapplied) and records it in the pushed
frame. -/
theorem variation_entry_restores_prebranch_witness :
    (processNextMove EW sampleOppState).chess = ChessGame.load "f1" ∧
    (processNextMove EW sampleOppState).moveStack =
      ⟨sampleOppState.currentMoves, 0, "f1", [], true, false⟩ ::
        sampleOppState.moveStack :=
  ⟨((variation_entry_restores_prebranch.1 EW sampleOppState sampleOppNode
      [MoveNode.fresh "Rxb4" 1 false] [] rfl rfl rfl rfl).1),
   ((variation_entry_restores_prebranch.1 EW sampleOppState sampleOppNode
      [MoveNode.fresh "Rxb4" 1 false] [] rfl rfl rfl rfl).2.1)⟩

end WoodpeckerTrainer

namespace WoodpeckerTrainer

open PGNParser

lemma findMatchingAux_isBad (att : String) :
    ∀ (vars : List (List MoveNode)) (mv : MatchedVar),
      findMatchingAux att vars = some mv →
      mv.isBad = (mv.firstMove.nags.contains (some 2) ||
        mv.firstMove.nags.contains (some 4)) ∧
      ∃ rest, mv.variation = mv.firstMove :: rest ∧
        normalizeSan mv.firstMove.san = att := by
  intro vars
  induction vars with
  | nil => intro mv h; simp [findMatchingAux] at h
  | cons v rest ih =>
    intro mv h
    cases v with
    | nil =>
      simp only [findMatchingAux] at h
      exact ih mv h
    | cons fm vrest =>
      simp only [findMatchingAux] at h
      split at h
      · rename_i heq
        simp only [Option.some.injEq] at h
        subst h
        exact ⟨rfl, vrest, rfl, heq⟩
      · exact ih mv h

lemma handlePlayerMove_guard_lt (s : TrainerState) (expectedMove : MoveNode)
    (ha : s.isActive = true)
    (he : s.currentMoves[s.moveIndex]? = some expectedMove) :
    (!s.isActive || decide (s.currentMoves.length ≤ s.moveIndex)) = false := by
  have hlt : s.moveIndex < s.currentMoves.length := by
    by_contra hc
    push_neg at hc
    rw [List.getElem?_eq_none hc] at he
    cases he
  simp only [ha, Bool.not_true, Bool.false_or, decide_eq_false_iff_not]
  omega

/-- Claim C2: a player attempt that misses the expected move but
normalizes equal to the first move of one of its variations is
classified by that first move's quality codes.  With code 2 or 4 the
line is bad: the mistake counter goes up by exactly one, the attempted
move stays applied, the pre-move restore context is saved, and the
variation's remainder (from its second move) is scheduled as passive
playback at the slower 2000 ms interval; under any other quality state
the line is good: mistakes unchanged, the mainline context is pushed
with the player-initiated flag, and interactive traversal continues
inside the variation from its second move (800 ms scheduling of the
ordinary traversal loop).  The playback step executes whatever node is
scheduled, with no condition on its side. -/
theorem player_variation_quality_classification :
    (∀ (E : RulesEngine) (s : TrainerState) (f t : String)
        (promo : Option String) (expectedMove : MoveNode) (r : MoveResult)
        (mv : MatchedVar),
      s.boardInteractive = true → s.isActive = true → s.isPaused = false →
      s.isAutoPlaying = false →
      s.currentMoves[s.moveIndex]? = some expectedMove →
      E.applyFromTo s.chess.fen f t (promo.getD "q") = some r →
      normalizeSan r.san ≠ normalizeSan expectedMove.san →
      findMatchingPlayerVariation expectedMove (normalizeSan r.san) =
        some mv →
      (mv.isBad = (mv.firstMove.nags.contains (some 2) ||
        mv.firstMove.nags.contains (some 4))) ∧
      (mv.isBad = true →
        (inputMove E s f t promo).mistakes = s.mistakes + 1 ∧
        (inputMove E s f t promo).chess.fen = r.fen ∧
        (inputMove E s f t promo).playerVariationRestore =
          some ⟨s.chess.fen, s.currentMoves, s.moveIndex⟩ ∧
        (inputMove E s f t promo).currentMoves = s.currentMoves ∧
        (inputMove E s f t promo).moveIndex = s.moveIndex ∧
        (inputMove E s f t promo).moveStack = s.moveStack ∧
        (inputMove E s f t promo).boardInteractive = false ∧
        (mv.variation.length ≤ 1 →
          (inputMove E s f t promo).pending =
            Pending.restorePlayerVariation 2000) ∧
        (1 < mv.variation.length →
          (inputMove E s f t promo).pending =
            Pending.autoPlayStep mv.variation 1 2000 ∧
          (inputMove E s f t promo).isAutoPlaying = true)) ∧
      (mv.isBad = false →
        (inputMove E s f t promo).mistakes = s.mistakes ∧
        (inputMove E s f t promo).chess.fen = r.fen ∧
        (inputMove E s f t promo).moveStack =
          ⟨s.currentMoves, s.moveIndex, s.chess.fen, [], false, true⟩ ::
            s.moveStack ∧
        (inputMove E s f t promo).currentMoves = mv.variation ∧
        (inputMove E s f t promo).moveIndex = 1 ∧
        (inputMove E s f t promo).isInVariation = true ∧
        (inputMove E s f t promo).pending = Pending.processNext 800 ∧
        (inputMove E s f t promo).boardInteractive = false)) ∧
    (∀ (E : RulesEngine) (s : TrainerState) (vm : List MoveNode)
        (i d : Nat) (node : MoveNode),
      s.pending = Pending.autoPlayStep vm i d → s.isActive = true →
      vm[i]? = some node →
      runPending E s =
        autoPlayBadVariationStep (executeMove E s node) vm (i + 1)) := by
  constructor
  · intro E s f t promo expectedMove r mv hi ha hp hap he hr hm hf
    have hbad := findMatchingAux_isBad (normalizeSan r.san)
      expectedMove.variations mv hf
    refine ⟨hbad.1, ?_, ?_⟩
    all_goals
      intro hb
    all_goals
      unfold inputMove
    all_goals
      simp only [hi, ha, hp, hap, Bool.not_false, Bool.and_true,
        Bool.and_self, if_true]
    all_goals
      unfold handlePlayerMove
    all_goals
      simp only [handlePlayerMove_guard_lt s expectedMove ha he,
        Bool.false_eq_true, if_false]
    all_goals
      rw [he, hr]
    all_goals
      simp only [hm, if_false]
    all_goals
      rw [hf]
    all_goals
      unfold handlePlayerVariation
    · -- bad line
      simp only [hb, if_true]
      unfold autoPlayBadVariationStep
      simp only [ha, Bool.not_true, Bool.false_eq_true, if_false]
      by_cases hlen : mv.variation.length ≤ 1
      · simp only [hlen, if_true]
        and_intros <;>
          first
          | trivial
          | (intro hc; first | trivial | omega | exact ⟨rfl, rfl⟩)
      · simp only [hlen, if_false]
        and_intros <;>
          first
          | trivial
          | (intro hc; first | trivial | omega | exact ⟨rfl, rfl⟩)
    · -- good line
      simp only [hb, Bool.false_eq_true, if_false]
      and_intros <;> trivial
  · intro E s vm i d node hpend hact hv
    unfold runPending
    rw [hpend]
    simp only [hact, Bool.not_true, Bool.false_eq_true, if_false, hv]

end WoodpeckerTrainer

namespace WoodpeckerTrainer

open PGNParser

/-- A variation whose first move carries quality code 2 (a bad line),
used to instantiate witnesses. -/
def sampleBadFirst : MoveNode := .mk "d4" 1 true "" [some 2] [] [] []

def sampleBadVar : List MoveNode :=
  [sampleBadFirst, .mk "d5" 1 false "" [] [] [] []]

/-- A variation with no quality codes (a good line). -/
def sampleGoodFirst : MoveNode := .mk "c4" 1 true "" [] [] [] []

def sampleGoodVar : List MoveNode := [sampleGoodFirst]

/-- A player-side expected move carrying the two sample variations. -/
def sampleExpected : MoveNode :=
  .mk "e4" 1 true "" [] [] [] [sampleBadVar, sampleGoodVar]

/-- A concrete engine for witnesses: from position `g0` the d2-d4 drop
plays `d4` and the c2-c4 drop plays `c4`. -/
def EC : RulesEngine where
  applySan := fun _ _ => none
  applyFromTo := fun fen f t _ =>
    if fen = "g0" && f = "d2" && t = "d4" then
      some ⟨"d4", "b1", "d2", "d4", false⟩
    else if fen = "g0" && f = "c2" && t = "c4" then
      some ⟨"c4", "c1", "c2", "c4", false⟩
    else none

/-- A concrete state awaiting the player's move at `sampleExpected`. -/
def samplePlayerState : TrainerState :=
  { initialState with
    currentMoves := [sampleExpected, .mk "e5" 1 false "" [] [] [] []]
    moveIndex := 0
    playerColor := "w"
    isActive := true
    chess := ChessGame.load "g0" }

/-- Witness for C2: playing `d4` (the bad variation's first move,
quality code 2) instead of `e4` counts one mistake and schedules the
passive playback of the variation from its second move at the
2000 ms interval. -/
theorem player_variation_quality_classification_witness :
    (inputMove EC samplePlayerState "d2" "d4" none).mistakes =
      samplePlayerState.mistakes + 1 ∧
    (inputMove EC samplePlayerState "d2" "d4" none).pending =
      Pending.autoPlayStep sampleBadVar 1 2000 := by
  have happ := (player_variation_quality_classification.1 EC
    samplePlayerState "d2" "d4" none sampleExpected
    ⟨"d4", "b1", "d2", "d4", false⟩ ⟨sampleBadVar, true, sampleBadFirst⟩
    rfl rfl rfl rfl rfl rfl (by decide) rfl).2.1 rfl
  exact ⟨happ.1, (happ.2.2.2.2.2.2.2.2 (by decide)).1⟩

/-- Counterexample for C5: a rules-engine-rejected (illegal) attempt
is NOT handled as an 'incorrect' domain outcome — in a live,
interactive state whose engine rejects the drop a1-a2, the attempt is
a complete no-op: no mistake increment, no status event, no state
change at all. -/
theorem illegal_attempt_silent_noop :
    EC.applyFromTo samplePlayerState.chess.fen "a1" "a2" "q" = none ∧
    samplePlayerState.isActive = true ∧
    samplePlayerState.boardInteractive = true ∧
    samplePlayerState.moveIndex < samplePlayerState.currentMoves.length ∧
    inputMove EC samplePlayerState "a1" "a2" none = samplePlayerState ∧
    (inputMove EC samplePlayerState "a1" "a2" none).mistakes =
      samplePlayerState.mistakes ∧
    (inputMove EC samplePlayerState "a1" "a2" none).events =
      samplePlayerState.events := by
  refine ⟨rfl, rfl, rfl, by decide, ?_, ?_, ?_⟩ <;> rfl

/-- Claim C5 (amended): a legal attempt matching neither the expected
move nor any variation first move is fully reverted — the engine-side
undo restores the exact pre-attempt position and history — while the
mistake counter increments by one, the 'incorrect' status is emitted,
and the current index, sequence, stack and pending schedule are
unchanged; a rules-engine-rejected (illegal) attempt is rejected
defensively as a silent no-op: the state is returned entirely
unchanged (no exception — the model is total — no mistake, no status
event). -/
theorem wrong_attempt_reverted_illegal_noop :
    (∀ (E : RulesEngine) (s : TrainerState) (f t : String)
        (promo : Option String) (expectedMove : MoveNode) (r : MoveResult),
      s.boardInteractive = true → s.isActive = true → s.isPaused = false →
      s.isAutoPlaying = false →
      s.currentMoves[s.moveIndex]? = some expectedMove →
      E.applyFromTo s.chess.fen f t (promo.getD "q") = some r →
      normalizeSan r.san ≠ normalizeSan expectedMove.san →
      findMatchingPlayerVariation expectedMove (normalizeSan r.san) = none →
      (inputMove E s f t promo).chess = s.chess ∧
      (inputMove E s f t promo).mistakes = s.mistakes + 1 ∧
      (inputMove E s f t promo).events =
        WEvent.stIncorrect (s.mistakes + 1) :: s.events ∧
      (inputMove E s f t promo).moveIndex = s.moveIndex ∧
      (inputMove E s f t promo).currentMoves = s.currentMoves ∧
      (inputMove E s f t promo).moveStack = s.moveStack ∧
      (inputMove E s f t promo).pending = s.pending ∧
      (inputMove E s f t promo).isInVariation = s.isInVariation ∧
      (inputMove E s f t promo).boardInteractive = s.boardInteractive) ∧
    (∀ (E : RulesEngine) (s : TrainerState) (f t : String)
        (promo : Option String),
      E.applyFromTo s.chess.fen f t (promo.getD "q") = none →
      inputMove E s f t promo = s) := by
  constructor
  · intro E s f t promo expectedMove r hi ha hp hap he hr hm hf
    unfold inputMove
    simp only [hi, ha, hp, hap, Bool.not_false, Bool.and_true,
      Bool.and_self, if_true]
    unfold handlePlayerMove
    simp only [handlePlayerMove_guard_lt s expectedMove ha he,
      Bool.false_eq_true, if_false]
    rw [he, hr]
    simp only [hm, if_false]
    rw [hf]
    and_intros <;> trivial
  · intro E s f t promo hr
    unfold inputMove
    split
    · unfold handlePlayerMove
      split
      · rfl
      · cases he : s.currentMoves[s.moveIndex]? with
        | none => rfl
        | some expectedMove =>
          rw [hr]
    · rfl

/-- Witness for C5 (amended half): a legal but wrong drop from the
sample state is reverted and counted.  The engine EC answers c2-c4
with `c4`, which matches the good variation, so extend the engine
with a drop a2-a3 answered by `a3`, matching nothing. -/
def ECW : RulesEngine where
  applySan := fun _ _ => none
  applyFromTo := fun fen f t _ =>
    if fen = "g0" && f = "a2" && t = "a3" then
      some ⟨"a3", "g3", "a2", "a3", false⟩
    else none

theorem wrong_attempt_reverted_illegal_noop_witness :
    (inputMove ECW samplePlayerState "a2" "a3" none).mistakes =
      samplePlayerState.mistakes + 1 ∧
    (inputMove ECW samplePlayerState "a2" "a3" none).chess =
      samplePlayerState.chess ∧
    inputMove ECW samplePlayerState "z1" "z2" none = samplePlayerState := by
  have happ := wrong_attempt_reverted_illegal_noop.1 ECW samplePlayerState
    "a2" "a3" none sampleExpected ⟨"a3", "g3", "a2", "a3", false⟩
    rfl rfl rfl rfl rfl rfl (by decide) rfl
  exact ⟨happ.2.1, happ.1,
    wrong_attempt_reverted_illegal_noop.2 ECW samplePlayerState
      "z1" "z2" none rfl⟩

end WoodpeckerTrainer

namespace WoodpeckerTrainer

open PGNParser

lemma mistakes_completePuzzle (s : TrainerState) :
    (completePuzzle s).mistakes = s.mistakes := rfl

lemma mistakes_exitVariation (s : TrainerState) :
    (exitVariation s).mistakes = s.mistakes := by
  unfold exitVariation
  cases hs : s.moveStack with
  | nil => rfl
  | cons saved rest =>
    by_cases h1 : saved.pendingVariations.isEmpty <;>
      by_cases h2 : saved.playerVariation <;> simp [h1, h2]

lemma mistakes_startVariationExploration (s : TrainerState)
    (node : MoveNode) :
    (startVariationExploration s node).mistakes = s.mistakes := by
  unfold startVariationExploration
  cases hv : node.variations <;> rfl

lemma mistakes_processNextMove (E : RulesEngine) (s : TrainerState) :
    (processNextMove E s).mistakes = s.mistakes := by
  unfold processNextMove
  cases hn : s.currentMoves[s.moveIndex]? with
  | none =>
    by_cases hst : s.moveStack.isEmpty
    · simp only [hst, Bool.not_true, Bool.false_eq_true, if_false]
      exact mistakes_completePuzzle s
    · simp only [hst, Bool.not_false, if_true]
      exact mistakes_exitVariation s
  | some node =>
    by_cases hg : (!node.variations.isEmpty && !s.variationsDone &&
        !(isPlayerTurn s node)) = true
    · simp only [hg, if_true]
      exact mistakes_startVariationExploration _ node
    · simp only [hg, Bool.false_eq_true, if_false]
      by_cases ht : isPlayerTurn s node = true
      · simp [ht]
      · simp only [Bool.not_eq_true] at ht
        simp [ht]

lemma mistakes_autoPlayBadVariationStep (s : TrainerState)
    (vm : List MoveNode) (i : Nat) :
    (autoPlayBadVariationStep s vm i).mistakes = s.mistakes := by
  unfold autoPlayBadVariationStep
  by_cases h1 : s.isActive <;> by_cases h2 : vm.length ≤ i <;>
    simp [h1, h2]

lemma mistakes_restoreFromPlayerVariation (s : TrainerState) :
    (restoreFromPlayerVariation s).mistakes = s.mistakes := by
  unfold restoreFromPlayerVariation
  cases hq : s.playerVariationRestore with
  | none => rfl
  | some saved =>
    by_cases h1 : s.isActive <;> simp [h1]

lemma mistakes_runPending (E : RulesEngine) (s : TrainerState) :
    (runPending E s).mistakes = s.mistakes := by
  unfold runPending
  cases hp : s.pending with
  | idle => rfl
  | processNext d => exact mistakes_processNextMove E s
  | execAndContinue node d =>
    have h1 := mistakes_processNextMove E
      { executeMove E s node with moveIndex := s.moveIndex + 1 }
    have h2 := (executeMove_frame E s node).2.2.2.2.2.2.1
    simp only [h1]
    exact h2
  | enterNextVariation saved d =>
    cases hpv : saved.pendingVariations with
    | nil => simp [hpv]
    | cons nv remaining =>
      cases hbm : saved.moves[saved.moveIndex]? with
      | none => simp [hpv, hbm]
      | some bn => simp [hpv, hbm]
  | restoreMainline saved d => rfl
  | yourTurnAfterReturn d => rfl
  | autoPlayStep vm i d =>
    by_cases h1 : s.isActive
    · simp only [h1, Bool.not_true, Bool.false_eq_true, if_false]
      cases hv : vm[i]? with
      | none => rfl
      | some node =>
        have h2 := mistakes_autoPlayBadVariationStep
          (executeMove E s node) vm (i + 1)
        have h3 := (executeMove_frame E s node).2.2.2.2.2.2.1
        simp only [h2]
        exact h3
    · simp only [Bool.not_eq_true', Bool.not_eq_false] at h1
      simp [h1]
  | restorePlayerVariation d => exact mistakes_restoreFromPlayerVariation s

end WoodpeckerTrainer

namespace WoodpeckerTrainer

open PGNParser

lemma mistakes_handlePlayerVariation_or (s : TrainerState)
    (mv : MatchedVar) (fen : String) :
    (handlePlayerVariation s mv fen).mistakes =
      (if mv.isBad then s.mistakes + 1 else s.mistakes) := by
  unfold handlePlayerVariation
  by_cases hb : mv.isBad
  · simp only [hb, if_true]
    exact mistakes_autoPlayBadVariationStep _ _ _
  · simp [hb]

lemma mistakes_inputMove_or (E : RulesEngine) (s : TrainerState)
    (f t : String) (promo : Option String) :
    (inputMove E s f t promo).mistakes = s.mistakes ∨
    (inputMove E s f t promo).mistakes = s.mistakes + 1 := by
  unfold inputMove
  split
  · unfold handlePlayerMove
    split
    · exact Or.inl rfl
    · cases he : s.currentMoves[s.moveIndex]? with
      | none => exact Or.inl rfl
      | some expectedMove =>
        cases hr : E.applyFromTo s.chess.fen f t (promo.getD "q") with
        | none => exact Or.inl rfl
        | some r =>
          by_cases hm : normalizeSan r.san = normalizeSan expectedMove.san
          · simp only [hm, if_true]
            exact Or.inl (by simp)
          · simp only [hm, if_false]
            cases hf : findMatchingPlayerVariation expectedMove
                (normalizeSan r.san) with
            | some mv =>
              rw [mistakes_handlePlayerVariation_or]
              by_cases hb : mv.isBad
              · simp [hb]
              · simp [hb]
            | none => exact Or.inr rfl
  · exact Or.inl rfl

/-- Claim C4: mistake accounting.  (1) Scheduled callbacks never
change the mistake counter.  (2) A board input changes it by zero or
exactly one.  (3) An exact match of the expected move leaves it
unchanged.  (4) A diversion into a matching variation adds one exactly
when the line is bad.  (5) A wrong attempt adds exactly one.  (6) A
rejected (illegal) attempt leaves it unchanged.  (7) `startPuzzle`
resets it to zero.  (8) The puzzle-complete event reports solved if
and only if the final count is zero. -/
theorem solved_iff_zero_mistakes :
    (∀ (E : RulesEngine) (s : TrainerState),
      (runPending E s).mistakes = s.mistakes) ∧
    (∀ (E : RulesEngine) (s : TrainerState) (f t : String)
        (promo : Option String),
      (inputMove E s f t promo).mistakes = s.mistakes ∨
      (inputMove E s f t promo).mistakes = s.mistakes + 1) ∧
    (∀ (E : RulesEngine) (s : TrainerState) (f t : String)
        (promo : Option String) (expectedMove : MoveNode) (r : MoveResult),
      s.boardInteractive = true → s.isActive = true → s.isPaused = false →
      s.isAutoPlaying = false →
      s.currentMoves[s.moveIndex]? = some expectedMove →
      E.applyFromTo s.chess.fen f t (promo.getD "q") = some r →
      normalizeSan r.san = normalizeSan expectedMove.san →
      (inputMove E s f t promo).mistakes = s.mistakes) ∧
    (∀ (E : RulesEngine) (s : TrainerState) (f t : String)
        (promo : Option String) (expectedMove : MoveNode) (r : MoveResult)
        (mv : MatchedVar),
      s.boardInteractive = true → s.isActive = true → s.isPaused = false →
      s.isAutoPlaying = false →
      s.currentMoves[s.moveIndex]? = some expectedMove →
      E.applyFromTo s.chess.fen f t (promo.getD "q") = some r →
      normalizeSan r.san ≠ normalizeSan expectedMove.san →
      findMatchingPlayerVariation expectedMove (normalizeSan r.san) =
        some mv →
      (inputMove E s f t promo).mistakes =
        (if mv.isBad then s.mistakes + 1 else s.mistakes)) ∧
    (∀ (E : RulesEngine) (s : TrainerState) (f t : String)
        (promo : Option String) (expectedMove : MoveNode) (r : MoveResult),
      s.boardInteractive = true → s.isActive = true → s.isPaused = false →
      s.isAutoPlaying = false →
      s.currentMoves[s.moveIndex]? = some expectedMove →
      E.applyFromTo s.chess.fen f t (promo.getD "q") = some r →
      normalizeSan r.san ≠ normalizeSan expectedMove.san →
      findMatchingPlayerVariation expectedMove (normalizeSan r.san) = none →
      (inputMove E s f t promo).mistakes = s.mistakes + 1) ∧
    (∀ (E : RulesEngine) (s : TrainerState) (f t : String)
        (promo : Option String),
      E.applyFromTo s.chess.fen f t (promo.getD "q") = none →
      (inputMove E s f t promo).mistakes = s.mistakes) ∧
    (∀ (E : RulesEngine) (s : TrainerState) (idx : Nat) (game : Game),
      s.puzzles[idx]? = some game → (startPuzzle E s idx).mistakes = 0) ∧
    (∀ s : TrainerState, ∃ ta ts,
      (completePuzzle s).events =
        WEvent.puzzleComplete s.currentPuzzleIndex (s.mistakes == 0)
          s.mistakes ta ts :: s.events ∧
      ((s.mistakes == 0) = true ↔ s.mistakes = 0)) := by
  refine ⟨mistakes_runPending, mistakes_inputMove_or, ?_, ?_, ?_, ?_, ?_, ?_⟩
  · intro E s f t promo expectedMove r hi ha hp hap he hr hm
    unfold inputMove
    simp only [hi, ha, hp, hap, Bool.not_false, Bool.and_true,
      Bool.and_self, if_true]
    unfold handlePlayerMove
    simp only [handlePlayerMove_guard_lt s expectedMove ha he,
      Bool.false_eq_true, if_false]
    rw [he, hr]
    simp [hm]
  · intro E s f t promo expectedMove r mv hi ha hp hap he hr hm hf
    unfold inputMove
    simp only [hi, ha, hp, hap, Bool.not_false, Bool.and_true,
      Bool.and_self, if_true]
    unfold handlePlayerMove
    simp only [handlePlayerMove_guard_lt s expectedMove ha he,
      Bool.false_eq_true, if_false]
    rw [he, hr]
    simp only [hm, if_false]
    rw [hf]
    exact mistakes_handlePlayerVariation_or _ mv _
  · intro E s f t promo expectedMove r hi ha hp hap he hr hm hf
    unfold inputMove
    simp only [hi, ha, hp, hap, Bool.not_false, Bool.and_true,
      Bool.and_self, if_true]
    unfold handlePlayerMove
    simp only [handlePlayerMove_guard_lt s expectedMove ha he,
      Bool.false_eq_true, if_false]
    rw [he, hr]
    simp only [hm, if_false]
    rw [hf]
  · intro E s f t promo hr
    unfold inputMove
    split
    · unfold handlePlayerMove
      split
      · rfl
      · cases he : s.currentMoves[s.moveIndex]? with
        | none => rfl
        | some expectedMove => rw [hr]
    · rfl
  · intro E s idx game hg
    unfold startPuzzle
    rw [hg]
    rw [mistakes_processNextMove]
  · intro s
    exact ⟨_, _, rfl, by simp⟩

/-- A one-puzzle library for the `startPuzzle` witness. -/
def sampleGame : Game :=
  ⟨[], "White", "Black", "*", "", some "g0", "", [sampleExpected]⟩

/-- Witness for C4: a wrong attempt increments the counter by exactly
one; an exact-match scenario leaves it unchanged is covered by the
disjunction; starting the sample puzzle resets the counter to zero. -/
theorem solved_iff_zero_mistakes_witness :
    (inputMove ECW samplePlayerState "a2" "a3" none).mistakes =
      samplePlayerState.mistakes + 1 ∧
    (startPuzzle ECW { initialState with puzzles := [sampleGame] }
      0).mistakes = 0 := by
  refine ⟨?_, ?_⟩
  · exact solved_iff_zero_mistakes.2.2.2.2.1 ECW samplePlayerState
      "a2" "a3" none sampleExpected ⟨"a3", "g3", "a2", "a3", false⟩
      rfl rfl rfl rfl rfl rfl (by decide) rfl
  · exact solved_iff_zero_mistakes.2.2.2.2.2.2.1 ECW
      { initialState with puzzles := [sampleGame] } 0 sampleGame rfl

end WoodpeckerTrainer

namespace WoodpeckerTrainer

open PGNParser

/-- The saved-context fields (and everything else the bad-line
playback must not disturb): all trainer state except the engine
position, the event log, the auto-play latch and the pending
schedule. -/
def sameCore (s s2 : TrainerState) : Prop :=
  s2.puzzles = s.puzzles ∧ s2.currentPuzzleIndex = s.currentPuzzleIndex ∧
  s2.currentMoves = s.currentMoves ∧ s2.moveIndex = s.moveIndex ∧
  s2.playerColor = s.playerColor ∧ s2.mistakes = s.mistakes ∧
  s2.isActive = s.isActive ∧ s2.isPaused = s.isPaused ∧
  s2.moveStack = s.moveStack ∧ s2.variationsDone = s.variationsDone ∧
  s2.isInVariation = s.isInVariation ∧
  s2.playerVariationRestore = s.playerVariationRestore ∧
  s2.boardInteractive = s.boardInteractive ∧
  s2.sessionAttempts = s.sessionAttempts

lemma sameCore_trans (s s2 s3 : TrainerState) (h1 : sameCore s s2)
    (h2 : sameCore s2 s3) : sameCore s s3 := by
  unfold sameCore at h1 h2 ⊢
  obtain ⟨a1, a2, a3, a4, a5, a6, a7, a8, a9, a10, a11, a12, a13, a14⟩ := h1
  obtain ⟨b1, b2, b3, b4, b5, b6, b7, b8, b9, b10, b11, b12, b13, b14⟩ := h2
  exact ⟨b1.trans a1, b2.trans a2, b3.trans a3, b4.trans a4, b5.trans a5,
    b6.trans a6, b7.trans a7, b8.trans a8, b9.trans a9, b10.trans a10,
    b11.trans a11, b12.trans a12, b13.trans a13, b14.trans a14⟩

lemma executeMove_sameCore (E : RulesEngine) (s : TrainerState)
    (node : MoveNode) : sameCore s (executeMove E s node) := by
  unfold executeMove
  cases E.applySan s.chess.fen node.san with
  | none => exact ⟨rfl, rfl, rfl, rfl, rfl, rfl, rfl, rfl, rfl, rfl, rfl,
      rfl, rfl, rfl⟩
  | some r => exact ⟨rfl, rfl, rfl, rfl, rfl, rfl, rfl, rfl, rfl, rfl, rfl,
      rfl, rfl, rfl⟩

lemma autoPlayBadVariationStep_sameCore (s : TrainerState)
    (vm : List MoveNode) (i : Nat) :
    sameCore s (autoPlayBadVariationStep s vm i) := by
  unfold autoPlayBadVariationStep
  by_cases h1 : s.isActive <;> by_cases h2 : vm.length ≤ i <;>
    simp [h1, h2, sameCore]

lemma autoplay_tick (E : RulesEngine) (s : TrainerState)
    (vm : List MoveNode) (i : Nat)
    (hp : s.pending = Pending.autoPlayStep vm i 2000)
    (ha : s.isActive = true) (hi : i < vm.length) :
    sameCore s (runPending E s) ∧
    (vm.length ≤ i + 1 →
      (runPending E s).pending = Pending.restorePlayerVariation 2000 ∧
      (runPending E s).isAutoPlaying = false) ∧
    (i + 1 < vm.length →
      (runPending E s).pending = Pending.autoPlayStep vm (i + 1) 2000) ∧
    (runPending E s).isActive = true := by
  unfold runPending
  rw [hp]
  simp only [ha, Bool.not_true, Bool.false_eq_true, if_false]
  cases hv : vm[i]? with
  | none =>
    have := List.getElem?_eq_none_iff.mp hv
    omega
  | some node =>
    have hc := sameCore_trans s _ _ (executeMove_sameCore E s node)
      (autoPlayBadVariationStep_sameCore (executeMove E s node) vm (i + 1))
    refine ⟨hc, ?_, ?_, ?_⟩
    · intro hend
      have hact : (executeMove E s node).isActive = true := by
        rw [(executeMove_sameCore E s node).2.2.2.2.2.2.1]
        exact ha
      unfold autoPlayBadVariationStep
      simp [hact, hend]
    · intro hlt
      have hact : (executeMove E s node).isActive = true := by
        rw [(executeMove_sameCore E s node).2.2.2.2.2.2.1]
        exact ha
      unfold autoPlayBadVariationStep
      have hend : ¬ vm.length ≤ i + 1 := by omega
      simp [hact, hend]
    · rw [(autoPlayBadVariationStep_sameCore
        (executeMove E s node) vm (i + 1)).2.2.2.2.2.2.1]
      rw [(executeMove_sameCore E s node).2.2.2.2.2.2.1]
      exact ha

lemma autoplay_run (E : RulesEngine) (vm : List MoveNode) :
    ∀ (n i : Nat) (s : TrainerState), n = vm.length - i →
      s.pending = Pending.autoPlayStep vm i 2000 → s.isActive = true →
      i < vm.length →
      sameCore s (ticks E n s) ∧
      (ticks E n s).pending = Pending.restorePlayerVariation 2000 ∧
      (ticks E n s).isAutoPlaying = false ∧
      (ticks E n s).isActive = true := by
  intro n
  induction n with
  | zero => intro i s hn hp ha hi; omega
  | succ n ih =>
    intro i s hn hp ha hi
    have ht := autoplay_tick E s vm i hp ha hi
    by_cases hend : vm.length ≤ i + 1
    · have hn0 : n = 0 := by omega
      subst hn0
      simp only [ticks]
      exact ⟨ht.1, (ht.2.1 hend).1, (ht.2.1 hend).2, ht.2.2.2⟩
    · push_neg at hend
      have h2 := ih (i + 1) (runPending E s) (by omega)
        (ht.2.2.1 hend) ht.2.2.2 hend
      simp only [ticks]
      exact ⟨sameCore_trans s _ _ ht.1 h2.1, h2.2⟩

lemma restorePV_fields (E : RulesEngine) (s : TrainerState)
    (ctx : RestoreCtx) (d : Nat)
    (hp : s.pending = Pending.restorePlayerVariation d)
    (hr : s.playerVariationRestore = some ctx) (ha : s.isActive = true) :
    (runPending E s).chess = ChessGame.load ctx.chessFen ∧
    (runPending E s).currentMoves = ctx.moves ∧
    (runPending E s).moveIndex = ctx.moveIndex ∧
    (runPending E s).isInVariation = !s.moveStack.isEmpty ∧
    (runPending E s).playerVariationRestore = none ∧
    (runPending E s).boardInteractive = true ∧
    (runPending E s).pending = Pending.idle ∧
    (runPending E s).events =
      WEvent.stYourTurn ctx.moveIndex (!s.moveStack.isEmpty) :: s.events ∧
    (runPending E s).mistakes = s.mistakes ∧
    (runPending E s).moveStack = s.moveStack ∧
    (runPending E s).isActive = s.isActive ∧
    (runPending E s).isAutoPlaying = s.isAutoPlaying ∧
    (runPending E s).isPaused = s.isPaused ∧
    (runPending E s).sessionAttempts = s.sessionAttempts ∧
    (runPending E s).playerColor = s.playerColor ∧
    (runPending E s).puzzles = s.puzzles ∧
    (runPending E s).variationsDone = s.variationsDone ∧
    (runPending E s).currentPuzzleIndex = s.currentPuzzleIndex := by
  unfold runPending
  rw [hp]
  unfold restoreFromPlayerVariation
  rw [hr]
  simp [ha]

lemma ticks_succ_right (E : RulesEngine) :
    ∀ (n : Nat) (s : TrainerState),
      ticks E (n + 1) s = runPending E (ticks E n s) := by
  intro n
  induction n with
  | zero => intro s; rfl
  | succ n ih =>
    intro s
    show ticks E (n + 1) (runPending E s) =
      runPending E (ticks E (n + 1) s)
    rw [ih (runPending E s)]
    rfl

lemma handle_bad_line (E : RulesEngine) (s : TrainerState) (f t : String)
    (promo : Option String) (expectedMove : MoveNode) (r : MoveResult)
    (mv : MatchedVar)
    (hi : s.boardInteractive = true) (ha : s.isActive = true)
    (hp : s.isPaused = false) (hap : s.isAutoPlaying = false)
    (he : s.currentMoves[s.moveIndex]? = some expectedMove)
    (hr : E.applyFromTo s.chess.fen f t (promo.getD "q") = some r)
    (hm : normalizeSan r.san ≠ normalizeSan expectedMove.san)
    (hf : findMatchingPlayerVariation expectedMove (normalizeSan r.san) =
      some mv)
    (hb : mv.isBad = true) :
    sameCore s { inputMove E s f t promo with
      mistakes := s.mistakes, boardInteractive := s.boardInteractive,
      playerVariationRestore := s.playerVariationRestore } ∧
    (inputMove E s f t promo).mistakes = s.mistakes + 1 ∧
    (inputMove E s f t promo).boardInteractive = false ∧
    (inputMove E s f t promo).playerVariationRestore =
      some ⟨s.chess.fen, s.currentMoves, s.moveIndex⟩ ∧
    (mv.variation.length ≤ 1 →
      (inputMove E s f t promo).pending =
        Pending.restorePlayerVariation 2000 ∧
      (inputMove E s f t promo).isAutoPlaying = false) ∧
    (1 < mv.variation.length →
      (inputMove E s f t promo).pending =
        Pending.autoPlayStep mv.variation 1 2000) := by
  unfold inputMove
  simp only [hi, ha, hp, hap, Bool.not_false, Bool.and_true,
    Bool.and_self, if_true]
  unfold handlePlayerMove
  simp only [handlePlayerMove_guard_lt s expectedMove ha he,
    Bool.false_eq_true, if_false]
  rw [he, hr]
  simp only [hm, if_false]
  rw [hf]
  unfold handlePlayerVariation
  simp only [hb, if_true]
  unfold autoPlayBadVariationStep
  simp only [ha, Bool.not_true, Bool.false_eq_true, if_false]
  by_cases hlen : mv.variation.length ≤ 1
  · simp only [hlen, if_true]
    refine ⟨⟨rfl, rfl, rfl, rfl, rfl, rfl, ha.symm, rfl, rfl, rfl, rfl, rfl,
      hi.symm, rfl⟩, ?_, ?_, ?_, ?_, ?_⟩ <;>
      first
      | trivial
      | (intro hc; first | trivial | omega | exact ⟨trivial, trivial⟩)
  · simp only [hlen, if_false]
    refine ⟨⟨rfl, rfl, rfl, rfl, rfl, rfl, ha.symm, rfl, rfl, rfl, rfl, rfl,
      hi.symm, rfl⟩, ?_, ?_, ?_, ?_, ?_⟩ <;>
      first
      | trivial
      | (intro hc; first | trivial | omega | exact ⟨trivial, trivial⟩)

end WoodpeckerTrainer

namespace WoodpeckerTrainer

open PGNParser

/-- Claim C3: in a still-active session, after the bad-line
auto-playback runs to completion (one scheduled step per remaining
variation move plus the final restore) the engine restores the
mainline: the rules-engine position equals the snapshot taken before
the player's diverging move (the saved context is restored verbatim),
the current sequence and index equal their pre-move values, and the
engine is again awaiting the player's move at that index (idle
schedule, interactive board, your-turn status at the same index);
everything else of the saved mainline context — stack, attempts,
colours, flags — is unchanged, the only lasting effects being the
incremented mistake counter and the event log. -/
theorem bad_line_playback_reversible
    (E : RulesEngine) (s : TrainerState) (f t : String)
    (promo : Option String) (expectedMove : MoveNode) (r : MoveResult)
    (mv : MatchedVar)
    (hi : s.boardInteractive = true) (ha : s.isActive = true)
    (hp : s.isPaused = false) (hap : s.isAutoPlaying = false)
    (he : s.currentMoves[s.moveIndex]? = some expectedMove)
    (hr : E.applyFromTo s.chess.fen f t (promo.getD "q") = some r)
    (hm : normalizeSan r.san ≠ normalizeSan expectedMove.san)
    (hf : findMatchingPlayerVariation expectedMove (normalizeSan r.san) =
      some mv)
    (hb : mv.isBad = true) :
    (ticks E mv.variation.length (inputMove E s f t promo)).chess =
      ChessGame.load s.chess.fen ∧
    (ticks E mv.variation.length (inputMove E s f t promo)).currentMoves =
      s.currentMoves ∧
    (ticks E mv.variation.length (inputMove E s f t promo)).moveIndex =
      s.moveIndex ∧
    (ticks E mv.variation.length (inputMove E s f t promo)).pending =
      Pending.idle ∧
    (ticks E mv.variation.length
      (inputMove E s f t promo)).boardInteractive = true ∧
    (∃ evs, (ticks E mv.variation.length (inputMove E s f t promo)).events =
      WEvent.stYourTurn s.moveIndex (!s.moveStack.isEmpty) :: evs) ∧
    (ticks E mv.variation.length (inputMove E s f t promo)).mistakes =
      s.mistakes + 1 ∧
    (ticks E mv.variation.length (inputMove E s f t promo)).moveStack =
      s.moveStack ∧
    (ticks E mv.variation.length (inputMove E s f t promo)).isInVariation =
      !s.moveStack.isEmpty ∧
    (ticks E mv.variation.length
      (inputMove E s f t promo)).playerVariationRestore = none ∧
    (ticks E mv.variation.length (inputMove E s f t promo)).isActive =
      true ∧
    (ticks E mv.variation.length (inputMove E s f t promo)).isAutoPlaying =
      false ∧
    (ticks E mv.variation.length (inputMove E s f t promo)).isPaused =
      s.isPaused ∧
    (ticks E mv.variation.length
      (inputMove E s f t promo)).sessionAttempts = s.sessionAttempts ∧
    (ticks E mv.variation.length (inputMove E s f t promo)).playerColor =
      s.playerColor ∧
    (ticks E mv.variation.length (inputMove E s f t promo)).puzzles =
      s.puzzles ∧
    (ticks E mv.variation.length
      (inputMove E s f t promo)).variationsDone = s.variationsDone ∧
    (ticks E mv.variation.length
      (inputMove E s f t promo)).currentPuzzleIndex =
      s.currentPuzzleIndex := by
  have hbl := handle_bad_line E s f t promo expectedMove r mv hi ha hp hap
    he hr hm hf hb
  obtain ⟨c1, c2, c3, c4, c5, c6, c7, c8, c9, c10, c11, c12, c13, c14⟩ :=
    hbl.1
  have d1 : (inputMove E s f t promo).puzzles = s.puzzles := c1
  have d2 : (inputMove E s f t promo).currentPuzzleIndex =
    s.currentPuzzleIndex := c2
  have d3 : (inputMove E s f t promo).currentMoves = s.currentMoves := c3
  have d4 : (inputMove E s f t promo).moveIndex = s.moveIndex := c4
  have d5 : (inputMove E s f t promo).playerColor = s.playerColor := c5
  have d7 : (inputMove E s f t promo).isActive = s.isActive := c7
  have d8 : (inputMove E s f t promo).isPaused = s.isPaused := c8
  have d9 : (inputMove E s f t promo).moveStack = s.moveStack := c9
  have d10 : (inputMove E s f t promo).variationsDone =
    s.variationsDone := c10
  have d11 : (inputMove E s f t promo).isInVariation =
    s.isInVariation := c11
  have d14 : (inputMove E s f t promo).sessionAttempts =
    s.sessionAttempts := c14
  obtain ⟨hfm, vrest, hvar, -⟩ :=
    findMatchingAux_isBad (normalizeSan r.san) expectedMove.variations mv hf
  by_cases hlen : mv.variation.length ≤ 1
  · have hlen1 : mv.variation.length = 1 := by
      have h1 : mv.variation.length = vrest.length + 1 := by rw [hvar]; rfl
      omega
    rw [hlen1]
    have hrun : ticks E 1 (inputMove E s f t promo) =
        runPending E (inputMove E s f t promo) := rfl
    rw [hrun]
    have hfixed := restorePV_fields E (inputMove E s f t promo)
      ⟨s.chess.fen, s.currentMoves, s.moveIndex⟩ 2000
      (hbl.2.2.2.2.1 hlen).1 hbl.2.2.2.1 (d7.trans ha)
    obtain ⟨r1, r2, r3, r4, r5, r6, r7, r8, r9, r10, r11, r12, r13, r14,
      r15, r16, r17, r18⟩ := hfixed
    exact ⟨r1, r2, r3, r7, r6, ⟨(inputMove E s f t promo).events,
        by rw [r8, d9]⟩,
      r9.trans hbl.2.1, r10.trans d9, by rw [r4, d9], r5,
      r11.trans (d7.trans ha), r12.trans (hbl.2.2.2.2.1 hlen).2,
      r13.trans d8, r14.trans d14, r15.trans d5, r16.trans d1,
      r17.trans d10, r18.trans d2⟩
  · push_neg at hlen
    have hrun := autoplay_run E mv.variation (mv.variation.length - 1) 1
      (inputMove E s f t promo) (by omega) (hbl.2.2.2.2.2 hlen)
      (d7.trans ha) hlen
    obtain ⟨hc, hpend2, hauto2, hact2⟩ := hrun
    obtain ⟨e1, e2, e3, e4, e5, e6, e7, e8, e9, e10, e11, e12, e13, e14⟩ :=
      hc
    have hsplit : ticks E mv.variation.length (inputMove E s f t promo) =
        runPending E (ticks E (mv.variation.length - 1)
          (inputMove E s f t promo)) := by
      have hn : mv.variation.length = (mv.variation.length - 1) + 1 := by
        omega
      conv_lhs => rw [hn]
      rw [ticks_succ_right]
    rw [hsplit]
    have hfixed := restorePV_fields E
      (ticks E (mv.variation.length - 1) (inputMove E s f t promo))
      ⟨s.chess.fen, s.currentMoves, s.moveIndex⟩ 2000 hpend2
      (e12.trans hbl.2.2.2.1) hact2
    obtain ⟨r1, r2, r3, r4, r5, r6, r7, r8, r9, r10, r11, r12, r13, r14,
      r15, r16, r17, r18⟩ := hfixed
    exact ⟨r1, r2, r3, r7, r6,
      ⟨(ticks E (mv.variation.length - 1) (inputMove E s f t promo)).events,
        by rw [r8, e9, d9]⟩,
      r9.trans ((e6.trans hbl.2.1)),
      r10.trans (e9.trans d9), by rw [r4, e9, d9], r5,
      r11.trans hact2, r12.trans hauto2,
      r13.trans (e8.trans d8), r14.trans (e14.trans d14),
      r15.trans (e5.trans d5), r16.trans (e1.trans d1),
      r17.trans (e10.trans d10), r18.trans (e2.trans d2)⟩

/-- Witness for C3: from the sample state, diverting with `d4` (bad
line of length two) and letting the two scheduled steps run restores
the pre-move position `g0`, index 0 and the mainline, awaiting the
player with one recorded mistake. -/
theorem bad_line_playback_reversible_witness :
    (ticks EC 2 (inputMove EC samplePlayerState "d2" "d4" none)).chess =
      ChessGame.load "g0" ∧
    (ticks EC 2 (inputMove EC samplePlayerState "d2" "d4"
      none)).moveIndex = 0 ∧
    (ticks EC 2 (inputMove EC samplePlayerState "d2" "d4"
      none)).mistakes = 1 ∧
    (ticks EC 2 (inputMove EC samplePlayerState "d2" "d4"
      none)).pending = Pending.idle := by
  have happ := bad_line_playback_reversible EC samplePlayerState "d2" "d4"
    none sampleExpected ⟨"d4", "b1", "d2", "d4", false⟩
    ⟨sampleBadVar, true, sampleBadFirst⟩ rfl rfl rfl rfl rfl rfl
    (by decide) rfl rfl
  exact ⟨happ.1, happ.2.2.1, happ.2.2.2.2.2.2.1, happ.2.2.2.1⟩

end WoodpeckerTrainer
